import Mathlib

/-!
# Arireg SOAP client: name translation and the proxy handler

A shallow embedding of `arireg-soap-client/main.go`.

* A Go `string` / `[]byte` is a list of bytes (`GoString`, bytes as `Nat`).
* `bytes.ReplaceAll` is the left-to-right scan replacing non-overlapping
  occurrences.
* `http.Header` and `url.Values` are association lists (map entries in
  iteration order) with the canonicalising accessors of `net/http`.
* `soapProxyHandler` is a function of the request, the XML decoder and the
  upstream round trip; it returns the response written to the client together
  with the list of upstream calls it made.
-/

namespace Arireg

/-! ## Byte strings -/

/-- A Go string or byte slice: its bytes in order. -/
abbrev GoString := List Nat

/-- UTF-8 encoding of one code point (Go source literals are UTF-8). -/
def utf8Bytes (c : Char) : List Nat :=
  let n := c.toNat
  if n < 128 then [n]
  else if n < 2048 then [192 + n / 64, 128 + n % 64]
  else if n < 65536 then [224 + n / 4096, 128 + (n / 64) % 64, 128 + n % 64]
  else [240 + n / 262144, 128 + (n / 4096) % 64, 128 + (n / 64) % 64, 128 + n % 64]

/-- The bytes of a string literal of the Go source. -/
def lit (s : String) : GoString :=
  s.toList.flatMap utf8Bytes

/-- Go `bytes.Contains(b, sub)`: some suffix of `b` starts with `sub`. -/
def containsB (b sub : GoString) : Bool :=
  match b with
  | [] => sub.isPrefixOf []
  | c :: t => sub.isPrefixOf (c :: t) || containsB t sub

/-! ## `bytes.ReplaceAll` -/

/-- The scan behind `bytes.ReplaceAll` for a non-empty `old`: `skip` counts the
bytes of a matched occurrence that are still to be passed over. At `skip = 0`
a position where `old` starts emits `new` and passes over the occurrence; any
other position emits its byte. -/
def replaceAllAux (old new : GoString) : Nat → GoString → GoString
  | _, [] => []
  | skip + 1, _ :: s => replaceAllAux old new skip s
  | 0, c :: s =>
    if old.isPrefixOf (c :: s) then new ++ replaceAllAux old new (old.length - 1) s
    else c :: replaceAllAux old new 0 s

/-- Go `bytes.ReplaceAll(s, old, new)` for a non-empty `old` (every call in
`main.go` passes a non-empty literal): all non-overlapping occurrences of
`old`, leftmost first, are replaced by `new`. -/
def replaceAll (s old new : GoString) : GoString :=
  replaceAllAux old new 0 s

/-! ## `replaceServiceNames` -/

/-- The camelCase operation name, `ettevottegaSeotudIsikudV1`. -/
def camelName : GoString := lit "ettevottegaSeotudIsikudV1"

/-- The underscore operation name, `ettevottegaSeotudIsikud_v1`. -/
def underscoreName : GoString := lit "ettevottegaSeotudIsikud_v1"

/-- The camelCase response name, `ettevottegaSeotudIsikudV1Response`. -/
def camelResponse : GoString := lit "ettevottegaSeotudIsikudV1Response"

/-- The underscore response name, `ettevottegaSeotudIsikud_v1Response`. -/
def underscoreResponse : GoString := lit "ettevottegaSeotudIsikud_v1Response"

/-- Go `replaceServiceNames(xmlContent, toCamelCase)` (main.go 66-76).
`toCamelCase = true`: bare underscore name first, then the underscore response
name. `toCamelCase = false`: camelCase response name first, then the bare
camelCase name. -/
def replaceServiceNames (xmlContent : GoString) (toCamelCase : Bool) : GoString :=
  if toCamelCase then
    let result := replaceAll xmlContent underscoreName camelName
    replaceAll result underscoreResponse camelResponse
  else
    let result := replaceAll xmlContent camelResponse underscoreResponse
    replaceAll result camelName underscoreName

/-- The substitution order the specification words: in each direction the
response-suffixed token first, the bare token second. -/
def translateResponseFirst (content : GoString) (toClient : Bool) : GoString :=
  if toClient then
    replaceAll (replaceAll content underscoreResponse camelResponse) underscoreName camelName
  else
    replaceAll (replaceAll content camelResponse underscoreResponse) camelName underscoreName

/-! ## `net/http` headers -/

/-- Go `http.Header` (and `url.Values`), a `map[string][]string`: the map
entries, in the order a `range` visits them. -/
abbrev Header := List (GoString × List GoString)

/-- Go `validHeaderFieldByte`: the token bytes of RFC 7230, that is digits,
letters and the bytes of ``!#$%&'*+-.^_`|~``. -/
def validHeaderFieldByte (c : Nat) : Bool :=
  (decide (48 ≤ c) && decide (c ≤ 57)) || (decide (65 ≤ c) && decide (c ≤ 90)) ||
    (decide (97 ≤ c) && decide (c ≤ 122)) ||
    [33, 35, 36, 37, 38, 39, 42, 43, 45, 46, 94, 95, 96, 124, 126].contains c

/-- The rewriting loop of Go `canonicalMIMEHeaderKey`: upper case for the first
letter and for a letter after a dash, lower case for the other letters. -/
def canonicalLoop : Bool → GoString → GoString
  | _, [] => []
  | upper, c :: a =>
    let c2 :=
      if upper && decide (97 ≤ c) && decide (c ≤ 122) then c - 32
      else if !upper && decide (65 ≤ c) && decide (c ≤ 90) then c + 32
      else c
    c2 :: canonicalLoop (c2 == 45) a

/-- Go `textproto.CanonicalMIMEHeaderKey`: a key with a byte that is not a
token byte is returned unchanged, any other key is rewritten by the loop. -/
def CanonicalMIMEHeaderKey (s : GoString) : GoString :=
  if s.all validHeaderFieldByte then canonicalLoop true s else s

/-- The map lookup `h[k]` (the nil slice for an absent key). -/
def Header.values (h : Header) (k : GoString) : List GoString :=
  (List.lookup k h).getD []

/-- Go `Header.Get`: the first value under the canonical key, or `""`. -/
def Header.Get (h : Header) (key : GoString) : GoString :=
  match Header.values h (CanonicalMIMEHeaderKey key) with
  | [] => []
  | v :: _ => v

/-- Go `Header.Set`: the entry of the canonical key becomes the single value. -/
def Header.Set (h : Header) (key value : GoString) : Header :=
  h.filter (fun e => e.1 != CanonicalMIMEHeaderKey key) ++ [(CanonicalMIMEHeaderKey key, [value])]

/-- Go `Header.Add`: the value is appended to the entry of the canonical key. -/
def Header.Add (h : Header) (key value : GoString) : Header :=
  if h.any (fun e => e.1 == CanonicalMIMEHeaderKey key) then
    h.map (fun e => if e.1 == CanonicalMIMEHeaderKey key then (e.1, e.2 ++ [value]) else e)
  else h ++ [(CanonicalMIMEHeaderKey key, [value])]

/-- Go `url.Values.Has`: the key is present. -/
def Values.Has (v : Header) (key : GoString) : Bool :=
  v.any (fun e => e.1 == key)

/-- Go `fmt.Sprintf("%d", n)` for a length. -/
def sprintD (n : Nat) : GoString :=
  (Nat.toDigits 10 n).map Char.toNat

/-! ## Requests and responses -/

/-- The parts of the inbound `*http.Request` the handler reads. `query` is
`r.URL.Query()`; `body` is what `ioutil.ReadAll(r.Body)` gives, `none` for a
read error. -/
structure Request where
  method : GoString
  query : Header
  host : GoString
  header : Header
  body : Option GoString

/-- Go `SOAPEnvelope`: the inner XML of the header and of the body. -/
structure SOAPEnvelope where
  header : GoString
  body : GoString
deriving DecidableEq

/-- The request built for the upstream (`proxyReq`). -/
structure ProxyRequest where
  method : GoString
  url : GoString
  header : Header
  body : GoString
deriving DecidableEq

/-- The upstream `*http.Response`; `body` is what `ioutil.ReadAll(resp.Body)`
gives, `none` for a read error. -/
structure UpstreamResponse where
  statusCode : Nat
  header : Header
  body : Option GoString

/-- What the handler writes to the `http.ResponseWriter`. -/
structure ClientResponse where
  statusCode : Nat
  header : Header
  body : GoString
deriving DecidableEq

/-- One run of a handler: the response written and the upstream calls made,
in order. -/
structure Outcome where
  response : ClientResponse
  upstreamCalls : List ProxyRequest
deriving DecidableEq

/-! ## Messages, constants and the WSDL text -/

/-- Go constant `ARIREG_ENDPOINT`. -/
def ARIREG_ENDPOINT : GoString := lit "https://ariregxmlv6.rik.ee/"

/-- Go constant `SERVER_PORT`. -/
def SERVER_PORT : GoString := lit ":1236"

/-- The WSDL text of `wsdlHandler` before the interpolated host. -/
def wsdlHead : GoString := lit "<?xml version=\"1.0\" encoding=\"UTF-8\"?>
<definitions name=\"AriregProxyService\"
             targetNamespace=\"http://arireg.x-road.eu/producer/\"
             xmlns=\"http://schemas.xmlsoap.org/wsdl/\"
             xmlns:soap=\"http://schemas.xmlsoap.org/wsdl/soap/\"
             xmlns:tns=\"http://arireg.x-road.eu/producer/\"
             xmlns:xsd=\"http://www.w3.org/2001/XMLSchema\">

    <types>
        <xsd:schema targetNamespace=\"http://arireg.x-road.eu/producer/\">
            <xsd:element name=\"ettevottegaSeotudIsikudV1\">
                <xsd:complexType>
                    <xsd:sequence>
                        <xsd:element name=\"keha\">
                            <xsd:complexType>
                                <xsd:sequence>
                                    <xsd:element name=\"ariregistri_kood\" type=\"xsd:string\"/>
                                </xsd:sequence>
                            </xsd:complexType>
                        </xsd:element>
                    </xsd:sequence>
                </xsd:complexType>
            </xsd:element>
            
            <xsd:element name=\"ettevottegaSeotudIsikudV1Response\">
                <xsd:complexType>
                    <xsd:sequence>
                        <xsd:element name=\"keha\">
                            <xsd:complexType>
                                <xsd:sequence>
                                    <xsd:any minOccurs=\"0\" maxOccurs=\"unbounded\" processContents=\"lax\"/>
                                </xsd:sequence>
                            </xsd:complexType>
                        </xsd:element>
                    </xsd:sequence>
                </xsd:complexType>
            </xsd:element>
        </xsd:schema>
    </types>

    <message name=\"ettevottegaSeotudIsikudV1Request\">
        <part name=\"parameters\" element=\"tns:ettevottegaSeotudIsikudV1\"/>
    </message>
    
    <message name=\"ettevottegaSeotudIsikudV1Response\">
        <part name=\"parameters\" element=\"tns:ettevottegaSeotudIsikudV1Response\"/>
    </message>

    <portType name=\"AriregProxyPortType\">
        <operation name=\"ettevottegaSeotudIsikudV1\">
            <input message=\"tns:ettevottegaSeotudIsikudV1Request\"/>
            <output message=\"tns:ettevottegaSeotudIsikudV1Response\"/>
        </operation>
    </portType>

    <binding name=\"AriregProxyBinding\" type=\"tns:AriregProxyPortType\">
        <soap:binding style=\"document\" transport=\"http://schemas.xmlsoap.org/soap/http\"/>
        
        <operation name=\"ettevottegaSeotudIsikudV1\">
            <soap:operation soapAction=\"ettevottegaSeotudIsikudV1\"/>
            <input>
                <soap:body use=\"literal\"/>
            </input>
            <output>
                <soap:body use=\"literal\"/>
            </output>
        </operation>
    </binding>

    <service name=\"AriregProxyService\">
        <documentation>Proxy service for Estonian Business Registry (Äriregister)</documentation>
        <port name=\"AriregProxyPort\" binding=\"tns:AriregProxyBinding\">
            <soap:address location=\"http://"

/-- The WSDL text of `wsdlHandler` after the interpolated host. -/
def wsdlTail : GoString := lit "/soap\"/>
        </port>
    </service>

</definitions>"

/-- Go `http.Error(w, error, code)` on a writer whose header map is still
empty: a plain-text body, the message followed by a newline. -/
def httpError (error : GoString) (code : Nat) : ClientResponse :=
  { statusCode := code
    header := Header.Set (Header.Set [] (lit "Content-Type") (lit "text/plain; charset=utf-8"))
      (lit "X-Content-Type-Options") (lit "nosniff")
    body := error ++ [10] }

/-- Go `wsdlHandler` (main.go 84-167): the WSDL text with the request host in
the service address, status 200. -/
def wsdlHandler (r : Request) : ClientResponse :=
  { statusCode := 200
    header := Header.Set [] (lit "Content-Type") (lit "text/xml; charset=utf-8")
    body := wsdlHead ++ r.host ++ wsdlTail }

/-! ## `soapProxyHandler` -/

/-- The test of main.go 265 on an inbound header name:
`len(key) > 6 && (key[:6] == "X-Road" || key[:6] == "x-road")`. -/
def isXRoadKey (key : GoString) : Bool :=
  decide (key.length > 6) && (key.take 6 == lit "X-Road" || key.take 6 == lit "x-road")

/-- The loop of main.go 264-271: every value of every inbound header passing
the X-Road test is added to the upstream header. -/
def copyXRoadHeaders (inbound : Header) (h : Header) : Header :=
  inbound.foldl (fun acc e =>
    if isXRoadKey e.1 then e.2.foldl (fun a value => Header.Add a e.1 value) acc else acc) h

/-- The header of the upstream request (main.go 247-271), from the inbound
header and the length of the translated body. -/
def proxyHeaders (inbound : Header) (bodyLen : Nat) : Header :=
  let h : Header := []
  let h := Header.Set h (lit "Content-Type") (lit "text/xml; charset=utf-8")
  let h := Header.Set h (lit "Content-Length") (sprintD bodyLen)
  let h := Header.Set h (lit "Connection") (lit "keep-alive")
  let soapAction := Header.Get inbound (lit "SOAPAction")
  let h := if soapAction != [] then Header.Set h (lit "SOAPAction") soapAction else h
  let userAgent := Header.Get inbound (lit "User-Agent")
  let h :=
    if userAgent != [] then Header.Set h (lit "User-Agent") userAgent
    else Header.Set h (lit "User-Agent") (lit "arireg-soap-client/1.0")
  copyXRoadHeaders inbound h

/-- The forwarding request (main.go 240-271): a POST to `ARIREG_ENDPOINT`
carrying the translated body. -/
def newProxyRequest (inbound : Header) (bodyBytes : GoString) : ProxyRequest :=
  { method := lit "POST", url := ARIREG_ENDPOINT
    header := proxyHeaders inbound bodyBytes.length, body := bodyBytes }

/-- The message for a failed upstream call (main.go 282-289), from the error
text. -/
def errorMsg (err : GoString) : GoString :=
  if containsB err (lit "tls") then
    lit "TLS/SSL connection error. Check certificate configuration."
  else if containsB err (lit "timeout") then
    lit "Backend service timeout. Service may be unavailable."
  else if containsB err (lit "connection refused") then
    lit "Backend service refused connection. Service may be down."
  else lit "Error forwarding request to backend: " ++ err

/-- The loop of main.go 315-323: every upstream header except the key
`Content-Length` is added to the client response header. -/
def copyResponseHeaders (upstream : Header) (h : Header) : Header :=
  upstream.foldl (fun acc e =>
    if e.1 == lit "Content-Length" then acc
    else e.2.foldl (fun a value => Header.Add a e.1 value) acc) h

/-- The header of the relayed response (main.go 314-331), from the upstream
header and the length of the translated body. -/
def responseHeaders (upstream : Header) (bodyLen : Nat) : Header :=
  let h := copyResponseHeaders upstream []
  let h :=
    if Header.Get h (lit "Content-Type") == [] then
      Header.Set h (lit "Content-Type") (lit "text/xml; charset=utf-8")
    else h
  Header.Set h (lit "Content-Length") (sprintD bodyLen)

/-- Go `soapProxyHandler` (main.go 169-338). `xmlUnmarshal` is
`xml.Unmarshal` into a `SOAPEnvelope` (`none` for an error) and `clientDo` is
`client.Do` (the error text for a failed call). Log lines are left out. -/
def soapProxyHandler (xmlUnmarshal : GoString → Option SOAPEnvelope)
    (clientDo : ProxyRequest → Except GoString UpstreamResponse) (r : Request) : Outcome :=
  if Values.Has r.query (lit "wsdl") || Values.Has r.query (lit "WSDL")
      || r.method == lit "GET" then
    { response := wsdlHandler r, upstreamCalls := [] }
  else if r.method != lit "POST" then
    { response := httpError (lit "Only POST method is allowed for SOAP requests") 405
      upstreamCalls := [] }
  else
    match r.body with
    | none =>
      { response := httpError (lit "Error reading request body") 400, upstreamCalls := [] }
    | some bodyBytes =>
      match xmlUnmarshal bodyBytes with
      | none =>
        { response := httpError (lit "Error parsing SOAP envelope") 400, upstreamCalls := [] }
      | some _ =>
        let bodyBytes := replaceServiceNames bodyBytes false
        let proxyReq := newProxyRequest r.header bodyBytes
        match clientDo proxyReq with
        | .error err =>
          { response := httpError (errorMsg err) 502, upstreamCalls := [proxyReq] }
        | .ok resp =>
          match resp.body with
          | none =>
            { response := httpError (lit "Error reading response") 500
              upstreamCalls := [proxyReq] }
          | some respBody =>
            let respBody := replaceServiceNames respBody true
            { response :=
                { statusCode := resp.statusCode
                  header := responseHeaders resp.header respBody.length
                  body := respBody }
              upstreamCalls := [proxyReq] }

/-- Lower case of an ASCII byte: header names are compared without regard to
letter case. -/
def asciiLower (c : Nat) : Nat :=
  if 65 ≤ c ∧ c ≤ 90 then c + 32 else c

/-! ## The error text of a refused connection -/

/-- Go `(*url.Error).Error()` for the POST of `client.Do` to `ARIREG_ENDPOINT`:
`Post "<url>": <inner error>`. -/
def urlErrorText (inner : GoString) : GoString :=
  lit "Post \"" ++ ARIREG_ENDPOINT ++ lit "\": " ++ inner

/-- The error text of `client.Do` when the upstream refuses the connection:
the `url.Error` around the dial error
`dial tcp <address>: connect: connection refused`. -/
def connectionRefusedError (addr : GoString) : GoString :=
  urlErrorText (lit "dial tcp " ++ addr ++ lit ": connect: connection refused")

/-- The bytes of a dialled address `ip:port`: digits, `.`, `:`, `[`, `]` and
the lower-case hexadecimal letters. -/
def isAddrByte (c : Nat) : Bool :=
  (decide (48 ≤ c) && decide (c ≤ 57)) || (decide (97 ≤ c) && decide (c ≤ 102)) ||
    [46, 58, 91, 93].contains c

/-! ## Sample inputs -/

/-- A decoder that accepts exactly the bodies starting with `<`. -/
def sampleUnmarshal (b : GoString) : Option SOAPEnvelope :=
  if b.head? = some 60 then some { header := [], body := b } else none

/-- An upstream that answers every call with status 200, its own
`Content-Length: 80` and `Content-Type`, and a body of 80 bytes in the
underscore rendering. -/
def sampleUpstream (_ : ProxyRequest) : Except GoString UpstreamResponse :=
  .ok { statusCode := 200
        header := [(lit "Content-Length", [lit "80"]), (lit "Content-Type", [lit "text/xml"])]
        body := some (lit
          "<ettevottegaSeotudIsikud_v1Response><keha/></ettevottegaSeotudIsikud_v1Response>") }

/-- An upstream whose every call fails with the given error text. -/
def failingUpstream (err : GoString) (_ : ProxyRequest) : Except GoString UpstreamResponse :=
  .error err

/-- A request on the forwarding endpoint with the given method, header and
body, and no query. -/
def sampleRequest (method : GoString) (header : Header) (body : GoString) : Request :=
  { method := method, query := [], host := lit "localhost:1236", header := header
    body := some body }

/-- A SOAP envelope in the client-facing rendering, with an empty header and
the `ettevottegaSeotudIsikudV1` request in its body. -/
def sampleEnvelope : GoString := lit
  "<soapenv:Envelope xmlns:soapenv=\"http://schemas.xmlsoap.org/soap/envelope/\" xmlns:prod=\"http://arireg.x-road.eu/producer/\"><soapenv:Header/><soapenv:Body><prod:ettevottegaSeotudIsikudV1><prod:keha><prod:ariregistri_kood>12345678</prod:ariregistri_kood></prod:keha></prod:ettevottegaSeotudIsikudV1></soapenv:Body></soapenv:Envelope>"

/-! ## Overlap checks on the tokens -/

/-- One of the two lists is a prefix of the other. -/
def compat (a b : GoString) : Bool :=
  a.isPrefixOf b || b.isPrefixOf a

/-- No proper, non-empty-offset suffix of `x` is compatible with `y`. -/
def noBorder (x y : GoString) : Bool :=
  (List.range x.length).all fun k => k == 0 || !(compat (x.drop k) y)

/-- No suffix of `x` (the whole of `x` included) is compatible with `y`. -/
def noInner (x y : GoString) : Bool :=
  (List.range x.length).all fun j => !(compat (x.drop j) y)

end Arireg

namespace Arireg

set_option maxRecDepth 100000

/-! ## Unfolding `replaceAll` -/

theorem replaceAllAux_skip (old new : GoString) (s : GoString) (k : Nat) :
    replaceAllAux old new k s = replaceAllAux old new 0 (s.drop k) := by
  induction s generalizing k with
  | nil => simp [replaceAllAux]
  | cons c s ih =>
    cases k with
    | zero => simp
    | succ k => simp only [replaceAllAux, List.drop_succ_cons]; exact ih k

theorem replaceAll_nil (old new : GoString) : replaceAll [] old new = [] := by
  simp [replaceAll, replaceAllAux]

theorem replaceAll_match (old new t : GoString) (h : old ≠ []) :
    replaceAll (old ++ t) old new = new ++ replaceAll t old new := by
  cases old with
  | nil => exact absurd rfl h
  | cons o os =>
    have hp : (o :: os).isPrefixOf (o :: (os ++ t)) = true := by
      rw [List.isPrefixOf_iff_prefix]; exact List.prefix_append (o :: os) t
    show replaceAllAux (o :: os) new 0 (o :: (os ++ t)) = new ++ replaceAllAux (o :: os) new 0 t
    rw [replaceAllAux, if_pos hp, replaceAllAux_skip]
    simp

theorem replaceAll_cons (old new : GoString) (c : Nat) (s : GoString)
    (h : ¬ old <+: c :: s) :
    replaceAll (c :: s) old new = c :: replaceAll s old new := by
  have hp : old.isPrefixOf (c :: s) = false := by
    rw [Bool.eq_false_iff]; intro hh; exact h (List.isPrefixOf_iff_prefix.mp hh)
  simp [replaceAll, replaceAllAux, hp]

/-- Bytes before the first possible match are copied unchanged. -/
theorem replaceAll_skip (old new : GoString) (q t : GoString)
    (h : ∀ j, j < q.length → ¬ old <+: q.drop j ++ t) :
    replaceAll (q ++ t) old new = q ++ replaceAll t old new := by
  induction q with
  | nil => simp
  | cons c q ih =>
    have h0 : ¬ old <+: c :: (q ++ t) := by simpa using h 0 (by simp)
    rw [List.cons_append, replaceAll_cons old new c (q ++ t) h0, ih, List.cons_append]
    intro j hj
    have := h (j + 1) (by simpa using hj)
    simpa using this

/-- Content without an occurrence of `old` is returned unchanged. -/
theorem replaceAll_noop (old new : GoString) (s : GoString) (h : ¬ old <:+: s) :
    replaceAll s old new = s := by
  induction s with
  | nil => exact replaceAll_nil old new
  | cons c s ih =>
    have h1 : ¬ old <+: c :: s := fun hp => h hp.isInfix
    have h2 : ¬ old <:+: s := fun hi => h (List.infix_cons_iff.mpr (Or.inr hi))
    rw [replaceAll_cons old new c s h1, ih h2]

/-! ## Compatibility of tokens -/

theorem compat_of_prefix_append {x a b : GoString} (h : x <+: a ++ b) : compat x a = true := by
  unfold compat
  rcases List.prefix_or_prefix_of_prefix h (List.prefix_append a b) with h1 | h1
  · simp [List.isPrefixOf_iff_prefix.mpr h1]
  · simp [List.isPrefixOf_iff_prefix.mpr h1]

theorem compat_comm (a b : GoString) : compat a b = compat b a := by
  unfold compat; exact Bool.or_comm _ _

theorem noBorder_spec {x y : GoString} (h : noBorder x y = true) (k : Nat) (h0 : 0 < k)
    (hk : k < x.length) : compat (x.drop k) y = false := by
  unfold noBorder at h
  rw [List.all_eq_true] at h
  have := h k (List.mem_range.mpr hk)
  have hk0 : (k == 0) = false := by simp; omega
  simpa [hk0] using this

theorem noInner_spec {x y : GoString} (h : noInner x y = true) (j : Nat)
    (hj : j < x.length) : compat (x.drop j) y = false := by
  unfold noInner at h
  rw [List.all_eq_true] at h
  simpa using h j (List.mem_range.mpr hj)

/-- An occurrence in `a ++ b` starts inside `a` or lies in `b`. -/
theorem infix_append_cases {x a b : GoString} (h : x <:+: a ++ b) :
    (∃ j, j < a.length ∧ x <+: a.drop j ++ b) ∨ x <:+: b := by
  induction a with
  | nil => right; simpa using h
  | cons c a ih =>
    rw [List.cons_append, List.infix_cons_iff] at h
    rcases h with h | h
    · left; exact ⟨0, by simp, by simpa using h⟩
    · rcases ih h with ⟨j, hj, hp⟩ | hb
      · left; exact ⟨j + 1, by simpa using hj, by simpa using hp⟩
      · right; exact hb

/-! ## What a replacement can and cannot create -/

/-- A prefix `x` found after replacement, behind a non-empty context `p`, was
already there before replacement, provided no proper suffix of `x` can run
into a copy of `new`. -/
theorem prefix_transfer (x old new : GoString) (ho : old ≠ [])
    (hx : noBorder x new = true) (s p : GoString) (hp : p ≠ [])
    (h : x <+: p ++ replaceAll s old new) : x <+: p ++ s := by
  induction s generalizing p with
  | nil => simpa [replaceAll_nil] using h
  | cons c s ih =>
    by_cases hm : old <+: c :: s
    · obtain ⟨t, ht⟩ := hm
      rw [← ht, replaceAll_match old new t ho] at h
      rcases List.prefix_or_prefix_of_prefix h (List.prefix_append p _) with h1 | h1
      · exact h1.trans (List.prefix_append p _)
      · obtain ⟨q, rfl⟩ := h1
        rw [List.prefix_append_right_inj] at h
        by_cases hq : q = []
        · subst hq; simp
        · exfalso
          have hc := compat_of_prefix_append h
          have hlen : 0 < p.length := List.length_pos.mpr hp
          have hql : 0 < q.length := List.length_pos.mpr hq
          have := noBorder_spec hx p.length hlen (by simp; exact hql)
          rw [List.drop_left] at this
          rw [hc] at this
          exact Bool.noConfusion this
    · rw [replaceAll_cons old new c s hm] at h
      have := ih (p ++ [c]) (by simp) (by simpa using h)
      simpa using this

/-- Induction along the scan: the content is empty, starts with an occurrence
of `old`, or starts with a byte at which no occurrence starts. -/
theorem scan_induction (old : GoString) (ho : old ≠ []) (P : GoString → Prop)
    (hnil : P []) (hmatch : ∀ t, P t → P (old ++ t))
    (hcons : ∀ c s, ¬ old <+: c :: s → P s → P (c :: s)) (s : GoString) : P s := by
  have key : ∀ n (s : GoString), s.length = n → P s := by
    intro n
    induction n using Nat.strong_induction_on with
    | _ n ih =>
      intro s hs
      by_cases hm : old <+: s
      · obtain ⟨t, rfl⟩ := hm
        have hlt : t.length < n := by
          have := List.length_pos.mpr ho
          rw [List.length_append] at hs
          omega
        exact hmatch t (ih t.length hlt t rfl)
      · cases s with
        | nil => exact hnil
        | cons c s =>
          have hlt : s.length < n := by
            rw [List.length_cons] at hs
            omega
          exact hcons c s hm (ih s.length hlt s rfl)
  exact key s.length s rfl

/-- After `replaceAll s old new` no occurrence of `old` is left, when the two
tokens cannot overlap. -/
theorem replaceAll_no_old (old new : GoString) (ho : old ≠ [])
    (h1 : noBorder old new = true) (h2 : noInner new old = true) (s : GoString) :
    ¬ old <:+: replaceAll s old new := by
  induction s using scan_induction old ho with
  | hnil =>
    rw [replaceAll_nil]
    intro hi
    exact ho (List.infix_nil.mp hi)
  | hmatch t ih =>
    rw [replaceAll_match old new t ho]
    intro hi
    rcases infix_append_cases hi with ⟨j, hj, hpre⟩ | hb
    · have hc := compat_of_prefix_append hpre
      rw [compat_comm] at hc
      rw [noInner_spec h2 j hj] at hc
      exact Bool.noConfusion hc
    · exact ih hb
  | hcons c s hm ih =>
    rw [replaceAll_cons old new c s hm, List.infix_cons_iff]
    rintro (hp | hi)
    · exact hm (prefix_transfer old old new ho h1 s [c] (by simp) hp)
    · exact ih hi

/-- Replacing back restores content that held no occurrence of `new`. -/
theorem replaceAll_round_trip (old new : GoString) (ho : old ≠ []) (hn : new ≠ [])
    (hb : noBorder new new = true) (s : GoString) (h : ¬ new <:+: s) :
    replaceAll (replaceAll s old new) new old = s := by
  induction s using scan_induction old ho with
  | hnil => simp [replaceAll_nil]
  | hmatch t ih =>
    have ht : ¬ new <:+: t := fun hi => h (hi.trans (List.suffix_append old t).isInfix)
    rw [replaceAll_match old new t ho, replaceAll_match new old _ hn, ih ht]
  | hcons c s hm ih =>
    have hs : ¬ new <:+: s := fun hi => h (List.infix_cons_iff.mpr (Or.inr hi))
    have h0 : ¬ new <+: c :: replaceAll s old new := fun hp =>
      h (prefix_transfer new old new ho hb s [c] (by simp) hp).isInfix
    rw [replaceAll_cons old new c s hm, replaceAll_cons new old c _ h0, ih hs]

/-- Replacing the suffixed token first changes nothing: with a context `p` in
front, replacing `old ++ suf` by `new ++ suf` and then `old` by `new` gives
what replacing `old` by `new` alone gives. -/
theorem replaceAll_suffixed_first (old new suf : GoString) (ho : old ≠ [])
    (hoo : noBorder old (old ++ suf) = true) (hon : noBorder old (new ++ suf) = true)
    (hno : noInner new old = true) (p s : GoString) :
    replaceAll (p ++ replaceAll s (old ++ suf) (new ++ suf)) old new
      = replaceAll (p ++ s) old new := by
  have hos : old ++ suf ≠ [] := by simp [ho]
  have key : ∀ n (p s : GoString), p.length + s.length = n →
      replaceAll (p ++ replaceAll s (old ++ suf) (new ++ suf)) old new
        = replaceAll (p ++ s) old new := by
    intro n
    induction n using Nat.strong_induction_on with
    | _ n ih =>
      intro p s hn
      have hol : 0 < old.length := List.length_pos.mpr ho
      by_cases hA : old <+: p ++ s
      · by_cases h1 : old <+: p
        · obtain ⟨p2, rfl⟩ := h1
          rw [List.append_assoc, List.append_assoc, replaceAll_match old new _ ho,
            replaceAll_match old new _ ho]
          rw [ih (p2.length + s.length) (by simp at hn; omega) p2 s rfl]
        · have h2 : p <+: old := by
            rcases List.prefix_or_prefix_of_prefix hA (List.prefix_append p s) with h | h
            · exact absurd h h1
            · exact h
          obtain ⟨q, hq⟩ := h2
          have hqne : q ≠ [] := by
            intro hq0
            apply h1
            rw [← hq, hq0, List.append_nil]
          have hql : 0 < q.length := List.length_pos.mpr hqne
          have hqs : q <+: s := by
            rw [← hq] at hA
            exact (List.prefix_append_right_inj p).mp hA
          obtain ⟨t, rfl⟩ := hqs
          have hR : replaceAll (p ++ (q ++ t)) old new = new ++ replaceAll t old new := by
            rw [← List.append_assoc, hq, replaceAll_match old new t ho]
          rw [hR]
          by_cases hs : p = [] ∧ suf <+: t
          · obtain ⟨hp0, t2, rfl⟩ := hs
            subst hp0
            have hq2 : old = q := by simpa using hq.symm
            subst hq2
            rw [← List.append_assoc, replaceAll_match (old ++ suf) (new ++ suf) t2 hos]
            rw [List.nil_append, List.append_assoc]
            rw [replaceAll_skip old new new (suf ++ replaceAll t2 (old ++ suf) (new ++ suf))]
            · rw [ih (suf.length + t2.length) (by simp at hn; omega) suf t2 rfl]
            · intro j hj hpre
              have hc := compat_of_prefix_append hpre
              rw [compat_comm, noInner_spec hno j hj] at hc
              exact Bool.noConfusion hc
          · have hskip : replaceAll (q ++ t) (old ++ suf) (new ++ suf)
                = q ++ replaceAll t (old ++ suf) (new ++ suf) := by
              apply replaceAll_skip
              intro j hj hpre
              by_cases hk : p.length + j = 0
              · have hp0 : p = [] := List.length_eq_zero.mp (by omega)
                have hj0 : j = 0 := by omega
                subst hp0
                subst hj0
                have hq2 : old = q := by simpa using hq.symm
                subst hq2
                have hst : suf <+: t := by simpa using hpre
                exact hs ⟨rfl, hst⟩
              · have hc := compat_of_prefix_append hpre
                have hd : old.drop (p.length + j) = q.drop j := by
                  rw [← hq, List.drop_append]
                have hlen : p.length + j < old.length := by
                  rw [← hq, List.length_append]; omega
                have := noBorder_spec hoo (p.length + j) (by omega) hlen
                rw [hd, compat_comm, hc] at this
                exact Bool.noConfusion this
            rw [hskip, ← List.append_assoc, hq, replaceAll_match old new _ ho]
            have := ih t.length (by simp at hn; omega) [] t (by simp)
            simp only [List.nil_append] at this
            rw [this]
      · cases p with
        | nil =>
          cases s with
          | nil => simp [replaceAll_nil]
          | cons c s2 =>
            simp only [List.nil_append] at hA ⊢
            have hA2 : ¬ (old ++ suf) <+: c :: s2 := fun h =>
              hA ((List.prefix_append old suf).trans h)
            rw [replaceAll_cons (old ++ suf) (new ++ suf) c s2 hA2]
            have h0 : ¬ old <+: c :: replaceAll s2 (old ++ suf) (new ++ suf) := fun h =>
              hA (prefix_transfer old (old ++ suf) (new ++ suf) hos hon s2 [c] (by simp) h)
            rw [replaceAll_cons old new c _ h0, replaceAll_cons old new c s2 hA]
            have := ih s2.length (by simp at hn; omega) [] s2 (by simp)
            simp only [List.nil_append] at this
            rw [this]
        | cons c p2 =>
          have h0 : ¬ old <+: c :: (p2 ++ replaceAll s (old ++ suf) (new ++ suf)) := fun h =>
            hA (prefix_transfer old (old ++ suf) (new ++ suf) hos hon s (c :: p2) (by simp) h)
          have hA2 : ¬ old <+: c :: (p2 ++ s) := hA
          rw [List.cons_append, List.cons_append, replaceAll_cons old new c _ h0,
            replaceAll_cons old new c (p2 ++ s) hA2]
          rw [ih (p2.length + s.length) (by simp at hn; omega) p2 s rfl]
  exact key _ p s rfl

/-- An occurrence of an unbordered `old` is always reached by the scan: the
result holds `new` in its place, followed by the translation of the rest. -/
theorem replaceAll_occurrence (old new : GoString) (ho : old ≠ [])
    (hoo : noBorder old old = true) (pre t : GoString) :
    ∃ u, replaceAll (pre ++ (old ++ t)) old new = u ++ (new ++ replaceAll t old new) := by
  have key : ∀ n (pre : GoString), pre.length = n →
      ∃ u, replaceAll (pre ++ (old ++ t)) old new = u ++ (new ++ replaceAll t old new) := by
    intro n
    induction n using Nat.strong_induction_on with
    | _ n ih =>
      intro pre hn
      have hol : 0 < old.length := List.length_pos.mpr ho
      by_cases h1 : old <+: pre
      · obtain ⟨p2, rfl⟩ := h1
        rw [List.append_assoc, replaceAll_match old new _ ho]
        obtain ⟨u, hu⟩ := ih p2.length (by simp at hn; omega) p2 rfl
        exact ⟨new ++ u, by rw [hu, List.append_assoc]⟩
      · cases pre with
        | nil => exact ⟨[], by simp [replaceAll_match old new t ho]⟩
        | cons c pre2 =>
          by_cases hA : old <+: c :: (pre2 ++ (old ++ t))
          · exfalso
            have h2 : (c :: pre2) <+: old := by
              rcases List.prefix_or_prefix_of_prefix hA
                (List.prefix_append (c :: pre2) (old ++ t)) with h | h
              · exact absurd h h1
              · exact h
            obtain ⟨q, hq⟩ := h2
            have hq0 : q ≠ [] := by
              intro h0
              apply h1
              rw [← hq, h0, List.append_nil]
            have hql : 0 < q.length := List.length_pos.mpr hq0
            have hA3 : (c :: pre2) ++ q <+: (c :: pre2) ++ (old ++ t) := by
              rw [hq]; exact hA
            rw [List.prefix_append_right_inj] at hA3
            have hc := compat_of_prefix_append hA3
            have hlen : (c :: pre2).length < old.length := by
              rw [← hq, List.length_append]; omega
            have := noBorder_spec hoo (c :: pre2).length (by simp) hlen
            have hd : old.drop (c :: pre2).length = q := by
              rw [← hq, List.drop_left]
            rw [hd, hc] at this
            exact Bool.noConfusion this
          · rw [List.cons_append, replaceAll_cons old new c _ hA]
            obtain ⟨u, hu⟩ := ih pre2.length (by simp at hn; omega) pre2 rfl
            exact ⟨c :: u, by rw [hu, List.cons_append]⟩
  exact key _ pre rfl

/-- When `old` and `new` start with the same byte, the translation of content
starting with that byte starts with it too. -/
theorem replaceAll_head (o : Nat) (os ns s : GoString) :
    ∃ r, replaceAll (o :: s) (o :: os) (o :: ns) = o :: r := by
  by_cases hm : (o :: os) <+: o :: s
  · obtain ⟨t, ht⟩ := hm
    rw [← ht, replaceAll_match (o :: os) (o :: ns) t (by simp)]
    exact ⟨_, rfl⟩
  · rw [replaceAll_cons _ _ o s hm]
    exact ⟨_, rfl⟩

/-- `containsB` decides whether `sub` occurs in `b` as a contiguous block. -/
theorem containsB_iff (b sub : GoString) : containsB b sub = true ↔ sub <:+: b := by
  induction b with
  | nil =>
    simp only [containsB, List.isPrefixOf_iff_prefix, List.infix_nil, List.prefix_nil]
  | cons c t ih =>
    simp only [containsB, Bool.or_eq_true, List.isPrefixOf_iff_prefix, ih, List.infix_cons_iff]

theorem containsB_false_iff (b sub : GoString) : containsB b sub = false ↔ ¬ sub <:+: b := by
  rw [← containsB_iff, Bool.not_eq_true]

/-! ## The four tokens -/

/-- The suffix that turns an operation name into its response name. -/
theorem camelResponse_eq : camelResponse = camelName ++ lit "Response" := by decide

theorem underscoreResponse_eq : underscoreResponse = underscoreName ++ lit "Response" := by
  decide

theorem camelName_ne_nil : camelName ≠ [] := by decide

theorem underscoreName_ne_nil : underscoreName ≠ [] := by decide

/-- The body returned towards the client holds no underscore name: the second
substitution of that direction finds nothing to replace. -/
theorem toClient_eq (x : GoString) :
    replaceServiceNames x true = replaceAll x underscoreName camelName := by
  have h := replaceAll_no_old underscoreName camelName underscoreName_ne_nil
    (by decide) (by decide) x
  have h2 : ¬ underscoreResponse <:+: replaceAll x underscoreName camelName := by
    rw [underscoreResponse_eq]
    exact fun hi => h ((List.prefix_append _ _).isInfix.trans hi)
  simp only [replaceServiceNames, if_true]
  exact replaceAll_noop _ _ _ h2

/-- Towards the upstream the two substitutions amount to replacing the bare
camelCase name everywhere. -/
theorem toUpstream_eq (x : GoString) :
    replaceServiceNames x false = replaceAll x camelName underscoreName := by
  have h := replaceAll_suffixed_first camelName underscoreName (lit "Response")
    camelName_ne_nil (by decide) (by decide) (by decide) [] x
  simp only [List.nil_append] at h
  simp only [replaceServiceNames, Bool.false_eq_true, if_false]
  rw [camelResponse_eq, underscoreResponse_eq]
  exact h

theorem toClient_no_underscore (x : GoString) :
    ¬ underscoreName <:+: replaceServiceNames x true := by
  rw [toClient_eq]
  exact replaceAll_no_old underscoreName camelName underscoreName_ne_nil
    (by decide) (by decide) x

theorem toUpstream_no_camel (x : GoString) :
    ¬ camelName <:+: replaceServiceNames x false := by
  rw [toUpstream_eq]
  exact replaceAll_no_old camelName underscoreName camelName_ne_nil
    (by decide) (by decide) x

/-! ## Claims on `replaceServiceNames` -/

/-- C1. `replaceServiceNames` is idempotent in each direction: translating a
second time with the same `toCamelCase` changes nothing. -/
theorem replaceServiceNames_idempotent (x : GoString) (d : Bool) :
    replaceServiceNames (replaceServiceNames x d) d = replaceServiceNames x d := by
  cases d with
  | true =>
    rw [toClient_eq (replaceServiceNames x true)]
    exact replaceAll_noop _ _ _ (toClient_no_underscore x)
  | false =>
    rw [toUpstream_eq (replaceServiceNames x false)]
    exact replaceAll_noop _ _ _ (toUpstream_no_camel x)

/-- C2. Round trip: content without the underscore name
`ettevottegaSeotudIsikud_v1`, translated towards the upstream and then towards
the client, comes back unchanged. -/
theorem replaceServiceNames_round_trip (e : GoString)
    (h : containsB e underscoreName = false) :
    replaceServiceNames (replaceServiceNames e false) true = e := by
  rw [toClient_eq, toUpstream_eq]
  exact replaceAll_round_trip camelName underscoreName camelName_ne_nil
    underscoreName_ne_nil (by decide) e ((containsB_false_iff _ _).mp h)

theorem replaceServiceNames_round_trip_witness :
    containsB (lit "<ettevottegaSeotudIsikudV1><keha/></ettevottegaSeotudIsikudV1>")
        underscoreName = false ∧
      replaceServiceNames (replaceServiceNames
        (lit "<ettevottegaSeotudIsikudV1><keha/></ettevottegaSeotudIsikudV1>") false) true
        = lit "<ettevottegaSeotudIsikudV1><keha/></ettevottegaSeotudIsikudV1>" :=
  ⟨by decide, replaceServiceNames_round_trip _ (by decide)⟩

/-- C3. After translation the other rendering is gone: the payload for the
upstream holds no `ettevottegaSeotudIsikudV1`, the body for the client holds no
`ettevottegaSeotudIsikud_v1`, and an upstream body holding
`ettevottegaSeotudIsikud_v1Response` gives a client body holding
`ettevottegaSeotudIsikudV1Response`. -/
theorem replaceServiceNames_canonical (x : GoString) :
    containsB (replaceServiceNames x false) camelName = false ∧
    containsB (replaceServiceNames x true) underscoreName = false ∧
    (containsB x underscoreResponse = true →
      containsB (replaceServiceNames x true) camelResponse = true) := by
  refine ⟨(containsB_false_iff _ _).mpr (toUpstream_no_camel x),
    (containsB_false_iff _ _).mpr (toClient_no_underscore x), ?_⟩
  intro h
  rw [containsB_iff] at h ⊢
  obtain ⟨pre, post, rfl⟩ := h
  rw [toClient_eq, underscoreResponse_eq]
  simp only [List.append_assoc]
  obtain ⟨u, hu⟩ := replaceAll_occurrence underscoreName camelName underscoreName_ne_nil
    (by decide) pre (lit "Response" ++ post)
  rw [hu]
  have hsplit : lit "Response" ++ post = lit "Respons" ++ (101 :: post) := by
    have : lit "Response" = lit "Respons" ++ [101] := by decide
    rw [this, List.append_assoc]; rfl
  have hskip : replaceAll (lit "Respons" ++ (101 :: post)) underscoreName camelName
      = lit "Respons" ++ replaceAll (101 :: post) underscoreName camelName := by
    apply replaceAll_skip
    intro j hj hpre
    have hc := compat_of_prefix_append hpre
    have hn : noInner (lit "Respons") underscoreName = true := by decide
    rw [compat_comm, noInner_spec hn j hj] at hc
    exact Bool.noConfusion hc
  have hU : underscoreName = 101 :: underscoreName.tail := by decide
  have hC : camelName = 101 :: camelName.tail := by decide
  obtain ⟨r, hr⟩ := replaceAll_head 101 underscoreName.tail camelName.tail post
  rw [← hU, ← hC] at hr
  rw [hsplit, hskip, hr]
  have hfin : u ++ (camelName ++ (lit "Respons" ++ 101 :: r))
      = u ++ camelResponse ++ r := by
    have : camelResponse = camelName ++ (lit "Respons" ++ [101]) := by decide
    rw [this]; simp
  rw [hfin]
  exact ⟨u, r, rfl⟩

theorem replaceServiceNames_canonical_witness :
    containsB (lit "<ettevottegaSeotudIsikud_v1Response/>") underscoreResponse = true ∧
      containsB (replaceServiceNames (lit "<ettevottegaSeotudIsikud_v1Response/>") true)
        camelResponse = true :=
  ⟨by decide,
    (replaceServiceNames_canonical (lit "<ettevottegaSeotudIsikud_v1Response/>")).2.2
      (by decide)⟩

/-- C10. Substitution order: in both directions `replaceServiceNames` returns
what substituting the response-suffixed token first and the bare token second
returns. -/
theorem replaceServiceNames_order (x : GoString) (d : Bool) :
    replaceServiceNames x d = translateResponseFirst x d := by
  cases d with
  | false => rfl
  | true =>
    rw [toClient_eq]
    have h := replaceAll_suffixed_first underscoreName camelName (lit "Response")
      underscoreName_ne_nil (by decide) (by decide) (by decide) [] x
    simp only [List.nil_append] at h
    simp only [translateResponseFirst, if_true]
    rw [camelResponse_eq, underscoreResponse_eq]
    exact h.symm

/-! ## Header maps -/

theorem values_nil (k : GoString) : Header.values [] k = [] := rfl

theorem values_cons (a : GoString) (b : List GoString) (h : Header) (k : GoString) :
    Header.values ((a, b) :: h) k = if k = a then b else Header.values h k := by
  by_cases hk : k = a
  · subst hk; simp [Header.values]
  · have h1 : (k == a) = false := by simpa using hk
    simp [Header.values, List.lookup, h1, hk]

theorem values_of_not_any (h : Header) (k : GoString)
    (hk : h.any (fun e => e.1 == k) = false) : Header.values h k = [] := by
  induction h with
  | nil => rfl
  | cons e h ih =>
    obtain ⟨a, b⟩ := e
    simp only [List.any_cons, Bool.or_eq_false_iff, beq_eq_false_iff_ne, ne_eq] at hk
    have hka : ¬ k = a := fun h => hk.1 h.symm
    rw [values_cons, if_neg hka]
    exact ih hk.2

theorem values_append_singleton (h : Header) (k k2 : GoString) (vs : List GoString) :
    Header.values (h ++ [(k2, vs)]) k
      = if h.any (fun e => e.1 == k) then Header.values h k
        else if k = k2 then vs else [] := by
  induction h with
  | nil => simp [values_cons, values_nil]
  | cons e h ih =>
    obtain ⟨a, b⟩ := e
    rw [List.cons_append, values_cons, values_cons, ih]
    by_cases hk : k = a
    · subst hk; simp
    · have h2 : (a == k) = false := by simpa using fun h => hk h.symm
      simp only [hk, if_false, List.any_cons, h2, Bool.false_or]

theorem values_filter_ne (h : Header) (c k : GoString) (hk : ¬ k = c) :
    Header.values (h.filter (fun e => e.1 != c)) k = Header.values h k := by
  induction h with
  | nil => rfl
  | cons e h ih =>
    obtain ⟨a, b⟩ := e
    by_cases ha : a = c
    · subst ha
      have : ((a != a) = true) = False := by simp
      rw [List.filter_cons]
      simp only [this, if_false, bne_self_eq_false, Bool.false_eq_true]
      rw [ih, values_cons, if_neg hk]
    · have : (a != c) = true := by simpa using ha
      rw [List.filter_cons]
      simp only [this, if_true]
      rw [values_cons, values_cons, ih]

theorem not_any_filter_ne (h : Header) (c : GoString) :
    (h.filter (fun e => e.1 != c)).any (fun e => e.1 == c) = false := by
  rw [Bool.eq_false_iff]
  intro hh
  rw [List.any_eq_true] at hh
  obtain ⟨e, he, hek⟩ := hh
  rw [List.mem_filter] at he
  have := he.2
  simp only [beq_iff_eq] at hek
  simp [hek] at this

/-- The map after `Set`: the single value under the canonical key, every other
key as before. -/
theorem values_Set (h : Header) (key value k : GoString) :
    Header.values (Header.Set h key value) k
      = if k = CanonicalMIMEHeaderKey key then [value] else Header.values h k := by
  unfold Header.Set
  by_cases hk : k = CanonicalMIMEHeaderKey key
  · subst hk
    rw [values_append_singleton, not_any_filter_ne]
    simp
  · rw [values_append_singleton, if_neg hk, if_neg hk]
    by_cases hany : (h.filter (fun e => e.1 != CanonicalMIMEHeaderKey key)).any
        (fun e => e.1 == k) = true
    · rw [if_pos hany, values_filter_ne h _ k hk]
    · rw [if_neg hany, ← values_filter_ne h _ k hk]
      exact (values_of_not_any _ k (Bool.eq_false_iff.mpr hany)).symm

theorem values_map_add (h : Header) (c value k : GoString) :
    Header.values (h.map (fun e => if e.1 == c then (e.1, e.2 ++ [value]) else e)) k
      = if k = c ∧ h.any (fun e => e.1 == c) = true then Header.values h k ++ [value]
        else Header.values h k := by
  induction h with
  | nil => simp [values_nil]
  | cons e h ih =>
    obtain ⟨a, b⟩ := e
    by_cases ha : a = c
    · subst ha
      simp only [List.map_cons, beq_self_eq_true, if_true, List.any_cons, Bool.true_or,
        and_true]
      rw [values_cons, values_cons]
      by_cases hk : k = a
      · simp [hk]
      · simp only [hk, if_false]
        rw [ih]
        simp [hk]
    · have h3 : (a == c) = false := by simpa using ha
      simp only [List.map_cons, h3, List.any_cons, Bool.false_or, Bool.false_eq_true, if_false]
      rw [values_cons, values_cons, ih]
      by_cases hk : k = a
      · have hkc : ¬ k = c := fun h => ha (hk ▸ h)
        simp [hk, ha]
      · simp [hk]

/-- The map after `Add`: the value appended under the canonical key, every
other key as before. -/
theorem values_Add (h : Header) (key value k : GoString) :
    Header.values (Header.Add h key value) k
      = if k = CanonicalMIMEHeaderKey key then Header.values h k ++ [value]
        else Header.values h k := by
  unfold Header.Add
  by_cases hany : h.any (fun e => e.1 == CanonicalMIMEHeaderKey key) = true
  · rw [if_pos hany, values_map_add]
    simp [hany]
  · have hany2 : h.any (fun e => e.1 == CanonicalMIMEHeaderKey key) = false :=
      Bool.eq_false_iff.mpr hany
    rw [if_neg hany, values_append_singleton]
    by_cases hc : k = CanonicalMIMEHeaderKey key
    · subst hc
      simp [hany2, values_of_not_any h _ hany2]
    · simp only [hc, if_false]
      by_cases hk : h.any (fun e => e.1 == k) = true
      · simp [hk]
      · have hk2 : h.any (fun e => e.1 == k) = false := Bool.eq_false_iff.mpr hk
        rw [values_of_not_any h k hk2]
        simp [hk2]

/-! ## The paths through `soapProxyHandler` -/

theorem post_beq_get : (lit "POST" == lit "GET") = false := by decide

/-- Discovery: a `wsdl` or `WSDL` query key, or the method GET, gives the WSDL
document and no upstream call. -/
theorem handler_wsdl (xmlUnmarshal : GoString → Option SOAPEnvelope)
    (clientDo : ProxyRequest → Except GoString UpstreamResponse) (r : Request)
    (h : (Values.Has r.query (lit "wsdl") || Values.Has r.query (lit "WSDL")
      || r.method == lit "GET") = true) :
    soapProxyHandler xmlUnmarshal clientDo r
      = { response := wsdlHandler r, upstreamCalls := [] } := by
  unfold soapProxyHandler
  rw [if_pos h]

/-- Any method other than GET and POST, without a discovery key: 405. -/
theorem handler_not_post (xmlUnmarshal : GoString → Option SOAPEnvelope)
    (clientDo : ProxyRequest → Except GoString UpstreamResponse) (r : Request)
    (hw : Values.Has r.query (lit "wsdl") = false)
    (hW : Values.Has r.query (lit "WSDL") = false)
    (hg : r.method ≠ lit "GET") (hp : r.method ≠ lit "POST") :
    soapProxyHandler xmlUnmarshal clientDo r
      = { response := httpError (lit "Only POST method is allowed for SOAP requests") 405
          upstreamCalls := [] } := by
  have h1 : (r.method == lit "GET") = false := by simpa using hg
  have h2 : (r.method != lit "POST") = true := by simpa using hp
  unfold soapProxyHandler
  simp only [hw, hW, h1, h2, Bool.or_self, Bool.false_eq_true, if_false, if_true]

/-- A POST whose body cannot be read: 400. -/
theorem handler_read_error (xmlUnmarshal : GoString → Option SOAPEnvelope)
    (clientDo : ProxyRequest → Except GoString UpstreamResponse) (r : Request)
    (hw : Values.Has r.query (lit "wsdl") = false)
    (hW : Values.Has r.query (lit "WSDL") = false)
    (hp : r.method = lit "POST") (hb : r.body = none) :
    soapProxyHandler xmlUnmarshal clientDo r
      = { response := httpError (lit "Error reading request body") 400
          upstreamCalls := [] } := by
  unfold soapProxyHandler
  simp only [hw, hW, hp, post_beq_get, bne_self_eq_false, Bool.or_self, Bool.false_eq_true,
    if_false, hb]

/-- A POST whose body is not a SOAP envelope: 400. -/
theorem handler_parse_error (xmlUnmarshal : GoString → Option SOAPEnvelope)
    (clientDo : ProxyRequest → Except GoString UpstreamResponse) (r : Request)
    (b : GoString)
    (hw : Values.Has r.query (lit "wsdl") = false)
    (hW : Values.Has r.query (lit "WSDL") = false)
    (hp : r.method = lit "POST") (hb : r.body = some b) (hx : xmlUnmarshal b = none) :
    soapProxyHandler xmlUnmarshal clientDo r
      = { response := httpError (lit "Error parsing SOAP envelope") 400
          upstreamCalls := [] } := by
  unfold soapProxyHandler
  simp only [hw, hW, hp, post_beq_get, bne_self_eq_false, Bool.or_self, Bool.false_eq_true,
    if_false, hb, hx]

/-- A forwarded POST whose upstream call fails: 502 with the classified
message, after the one upstream call. -/
theorem handler_transport_error (xmlUnmarshal : GoString → Option SOAPEnvelope)
    (clientDo : ProxyRequest → Except GoString UpstreamResponse) (r : Request)
    (b : GoString) (env : SOAPEnvelope) (err : GoString)
    (hw : Values.Has r.query (lit "wsdl") = false)
    (hW : Values.Has r.query (lit "WSDL") = false)
    (hp : r.method = lit "POST") (hb : r.body = some b) (hx : xmlUnmarshal b = some env)
    (hd : clientDo (newProxyRequest r.header (replaceServiceNames b false)) = .error err) :
    soapProxyHandler xmlUnmarshal clientDo r
      = { response := httpError (errorMsg err) 502
          upstreamCalls := [newProxyRequest r.header (replaceServiceNames b false)] } := by
  unfold soapProxyHandler
  simp only [hw, hW, hp, post_beq_get, bne_self_eq_false, Bool.or_self, Bool.false_eq_true,
    if_false, hb, hx, hd]

/-- A forwarded POST whose upstream answers: the upstream status, the rebuilt
header and the translated body. -/
theorem handler_relay (xmlUnmarshal : GoString → Option SOAPEnvelope)
    (clientDo : ProxyRequest → Except GoString UpstreamResponse) (r : Request)
    (b : GoString) (env : SOAPEnvelope) (resp : UpstreamResponse) (respBody : GoString)
    (hw : Values.Has r.query (lit "wsdl") = false)
    (hW : Values.Has r.query (lit "WSDL") = false)
    (hp : r.method = lit "POST") (hb : r.body = some b) (hx : xmlUnmarshal b = some env)
    (hd : clientDo (newProxyRequest r.header (replaceServiceNames b false)) = .ok resp)
    (hr : resp.body = some respBody) :
    soapProxyHandler xmlUnmarshal clientDo r
      = { response :=
            { statusCode := resp.statusCode
              header := responseHeaders resp.header (replaceServiceNames respBody true).length
              body := replaceServiceNames respBody true }
          upstreamCalls := [newProxyRequest r.header (replaceServiceNames b false)] } := by
  unfold soapProxyHandler
  simp only [hw, hW, hp, post_beq_get, bne_self_eq_false, Bool.or_self, Bool.false_eq_true,
    if_false, hb, hx, hd, hr]

/-- Every upstream call is the forwarding request built from the inbound header
and the translated body of a POST that passed envelope parsing. -/
theorem handler_calls (xmlUnmarshal : GoString → Option SOAPEnvelope)
    (clientDo : ProxyRequest → Except GoString UpstreamResponse) (r : Request)
    (c : ProxyRequest) (hc : c ∈ (soapProxyHandler xmlUnmarshal clientDo r).upstreamCalls) :
    ∃ b, r.body = some b ∧ (xmlUnmarshal b).isSome = true ∧ r.method = lit "POST" ∧
      c = newProxyRequest r.header (replaceServiceNames b false) := by
  unfold soapProxyHandler at hc
  split at hc
  · simp at hc
  · split at hc
    · simp at hc
    · rename_i hm
      have hm2 : r.method = lit "POST" := by simpa using hm
      split at hc
      · simp at hc
      · rename_i b hb
        split at hc
        · simp at hc
        · rename_i env hx
          refine ⟨b, hb, by simp [hx], hm2, ?_⟩
          simp only at hc
          split at hc
          · simpa using hc
          · split at hc
            · simpa using hc
            · simpa using hc

/-! ## Claims on the dispatch and error paths -/

/-- C5. A POST without a `wsdl`/`WSDL` query key whose body fails SOAP envelope
parsing is answered with status 400, and no upstream call is made. -/
theorem malformed_envelope_rejected (xmlUnmarshal : GoString → Option SOAPEnvelope)
    (clientDo : ProxyRequest → Except GoString UpstreamResponse) (r : Request)
    (b : GoString)
    (hw : Values.Has r.query (lit "wsdl") = false)
    (hW : Values.Has r.query (lit "WSDL") = false)
    (hp : r.method = lit "POST") (hb : r.body = some b) (hx : xmlUnmarshal b = none) :
    (soapProxyHandler xmlUnmarshal clientDo r).response.statusCode = 400 ∧
      (soapProxyHandler xmlUnmarshal clientDo r).upstreamCalls = [] := by
  rw [handler_parse_error xmlUnmarshal clientDo r b hw hW hp hb hx]
  exact ⟨rfl, rfl⟩

theorem malformed_envelope_rejected_witness :
    sampleUnmarshal (lit "not xml") = none ∧
      (soapProxyHandler sampleUnmarshal sampleUpstream
        (sampleRequest (lit "POST") [] (lit "not xml"))).response.statusCode = 400 ∧
      (soapProxyHandler sampleUnmarshal sampleUpstream
        (sampleRequest (lit "POST") [] (lit "not xml"))).upstreamCalls = [] :=
  ⟨by decide,
    malformed_envelope_rejected sampleUnmarshal sampleUpstream
      (sampleRequest (lit "POST") [] (lit "not xml")) (lit "not xml")
      (by decide) (by decide) rfl rfl (by decide)⟩

/-- C6, as stated, fails: a GET without a discovery key is not POST, yet it is
answered with the WSDL document and status 200, not 405. -/
theorem get_is_not_rejected :
    (sampleRequest (lit "GET") [] []).method ≠ lit "POST" ∧
      Values.Has (sampleRequest (lit "GET") [] []).query (lit "wsdl") = false ∧
      Values.Has (sampleRequest (lit "GET") [] []).query (lit "WSDL") = false ∧
      (soapProxyHandler sampleUnmarshal sampleUpstream
        (sampleRequest (lit "GET") [] [])).response.statusCode = 200 := by
  refine ⟨by decide, by decide, by decide, ?_⟩
  rw [handler_wsdl _ _ _ (by decide)]
  rfl

/-- C6, amended. A request whose method is not POST and that carries no
`wsdl`/`WSDL` query key makes no upstream call; it is answered with status 405
and the plain-text message unless its method is GET, and a GET is answered
with the WSDL document and status 200. -/
theorem non_post_not_forwarded (xmlUnmarshal : GoString → Option SOAPEnvelope)
    (clientDo : ProxyRequest → Except GoString UpstreamResponse) (r : Request)
    (hw : Values.Has r.query (lit "wsdl") = false)
    (hW : Values.Has r.query (lit "WSDL") = false)
    (hp : r.method ≠ lit "POST") :
    (soapProxyHandler xmlUnmarshal clientDo r).upstreamCalls = [] ∧
      (r.method ≠ lit "GET" →
        (soapProxyHandler xmlUnmarshal clientDo r).response.statusCode = 405 ∧
        (soapProxyHandler xmlUnmarshal clientDo r).response.body
          = lit "Only POST method is allowed for SOAP requests" ++ [10]) ∧
      (r.method = lit "GET" →
        (soapProxyHandler xmlUnmarshal clientDo r).response.statusCode = 200 ∧
        (soapProxyHandler xmlUnmarshal clientDo r).response.body
          = wsdlHead ++ r.host ++ wsdlTail) := by
  by_cases hg : r.method = lit "GET"
  · have h : (Values.Has r.query (lit "wsdl") || Values.Has r.query (lit "WSDL")
        || r.method == lit "GET") = true := by simp [hg]
    rw [handler_wsdl xmlUnmarshal clientDo r h]
    exact ⟨rfl, fun h => absurd hg h, fun _ => ⟨rfl, rfl⟩⟩
  · rw [handler_not_post xmlUnmarshal clientDo r hw hW hg hp]
    exact ⟨rfl, fun _ => ⟨rfl, rfl⟩, fun h => absurd h hg⟩

theorem non_post_not_forwarded_witness :
    (soapProxyHandler sampleUnmarshal sampleUpstream
        (sampleRequest (lit "PUT") [] (lit "<a/>"))).upstreamCalls = [] ∧
      (soapProxyHandler sampleUnmarshal sampleUpstream
        (sampleRequest (lit "PUT") [] (lit "<a/>"))).response.statusCode = 405 :=
  have h := non_post_not_forwarded sampleUnmarshal sampleUpstream
    (sampleRequest (lit "PUT") [] (lit "<a/>")) (by decide) (by decide) (by decide)
  ⟨h.1, (h.2.1 (by decide)).1⟩

theorem generic_ne (err msg : GoString) (h : msg.head? ≠ some 69) :
    lit "Error forwarding request to backend: " ++ err ≠ msg := by
  intro he
  apply h
  rw [← he]
  have : lit "Error forwarding request to backend: "
      = 69 :: (lit "Error forwarding request to backend: ").tail := by decide
  rw [this]
  rfl

/-- The message is one of the three fixed ones or the generic one. -/
theorem errorMsg_cases (err : GoString) :
    errorMsg err = lit "TLS/SSL connection error. Check certificate configuration." ∨
    errorMsg err = lit "Backend service timeout. Service may be unavailable." ∨
    errorMsg err = lit "Backend service refused connection. Service may be down." ∨
    errorMsg err = lit "Error forwarding request to backend: " ++ err := by
  unfold errorMsg
  split
  · exact Or.inl rfl
  · split
    · exact Or.inr (Or.inl rfl)
    · split
      · exact Or.inr (Or.inr (Or.inl rfl))
      · exact Or.inr (Or.inr (Or.inr rfl))

/-- An occurrence of `x` in `a ++ m ++ b` needs `x` to overlap `a`, to start
at a byte of `m`, or to lie in `b`. -/
theorem containsB_sandwich (x a m b : GoString) (c0 : Nat) (xs : GoString)
    (hx : x = c0 :: xs) (ha : noInner a x = true) (hm : c0 ∉ m)
    (hb : containsB b x = false) : containsB (a ++ (m ++ b)) x = false := by
  rw [containsB_false_iff]
  intro hi
  rcases infix_append_cases hi with ⟨j, hj, hp⟩ | h2
  · have hc := compat_of_prefix_append hp
    rw [compat_comm, noInner_spec ha j hj] at hc
    exact Bool.noConfusion hc
  · rcases infix_append_cases h2 with ⟨j, hj, hp⟩ | h3
    · rw [List.drop_eq_getElem_cons hj, hx, List.cons_append, List.cons_prefix_cons] at hp
      apply hm
      rw [hp.1]
      exact List.getElem_mem hj
    · exact (containsB_false_iff b x).mp hb h3

theorem addr_no_t (addr : GoString) (h : addr.all isAddrByte = true) : 116 ∉ addr := by
  intro hm
  have := (List.all_eq_true.mp h) 116 hm
  revert this
  decide

/-- The text of a refused connection is classified as such: it holds
`connection refused` and neither `tls` nor `timeout`. -/
theorem errorMsg_connectionRefused (addr : GoString) (h : addr.all isAddrByte = true) :
    errorMsg (connectionRefusedError addr)
      = lit "Backend service refused connection. Service may be down." := by
  have hform : connectionRefusedError addr
      = (lit "Post \"" ++ ARIREG_ENDPOINT ++ lit "\": " ++ lit "dial tcp ")
        ++ (addr ++ lit ": connect: connection refused") := by
    simp only [connectionRefusedError, urlErrorText, List.append_assoc]
  have ht := addr_no_t addr h
  have h1 : containsB (connectionRefusedError addr) (lit "tls") = false := by
    rw [hform]
    exact containsB_sandwich _ _ _ _ 116 (lit "ls") (by decide) (by decide) ht (by decide)
  have h2 : containsB (connectionRefusedError addr) (lit "timeout") = false := by
    rw [hform]
    exact containsB_sandwich _ _ _ _ 116 (lit "imeout") (by decide) (by decide) ht (by decide)
  have h3 : containsB (connectionRefusedError addr) (lit "connection refused") = true := by
    rw [containsB_iff, hform]
    have hb : lit "connection refused" <:+: lit ": connect: connection refused" := by
      rw [← containsB_iff]; decide
    exact hb.trans ((List.suffix_append _ _).isInfix.trans (List.suffix_append _ _).isInfix)
  simp [errorMsg, h1, h2, h3]

/-- C9. Every failed upstream call, whatever its error text, is answered with
status 502 and one of four messages (TLS/certificate, timeout, connection
refused, or the generic one followed by the error text); the four messages
are pairwise distinct; and a refused connection, whose error text is
`Post "https://ariregxmlv6.rik.ee/": dial tcp <address>: connect: connection refused`,
gives `Backend service refused connection. Service may be down.`, as does any
error text holding `connection refused` and neither `tls` nor `timeout`. -/
theorem transport_error_bad_gateway (xmlUnmarshal : GoString → Option SOAPEnvelope)
    (clientDo : ProxyRequest → Except GoString UpstreamResponse) (r : Request)
    (b : GoString) (env : SOAPEnvelope) (err : GoString)
    (hw : Values.Has r.query (lit "wsdl") = false)
    (hW : Values.Has r.query (lit "WSDL") = false)
    (hp : r.method = lit "POST") (hb : r.body = some b) (hx : xmlUnmarshal b = some env)
    (hd : clientDo (newProxyRequest r.header (replaceServiceNames b false)) = .error err) :
    (soapProxyHandler xmlUnmarshal clientDo r).response.statusCode = 502 ∧
    ((soapProxyHandler xmlUnmarshal clientDo r).response.body
        = lit "TLS/SSL connection error. Check certificate configuration." ++ [10] ∨
      (soapProxyHandler xmlUnmarshal clientDo r).response.body
        = lit "Backend service timeout. Service may be unavailable." ++ [10] ∨
      (soapProxyHandler xmlUnmarshal clientDo r).response.body
        = lit "Backend service refused connection. Service may be down." ++ [10] ∨
      (soapProxyHandler xmlUnmarshal clientDo r).response.body
        = (lit "Error forwarding request to backend: " ++ err) ++ [10]) ∧
    (lit "TLS/SSL connection error. Check certificate configuration."
        ≠ lit "Backend service timeout. Service may be unavailable." ∧
      lit "TLS/SSL connection error. Check certificate configuration."
        ≠ lit "Backend service refused connection. Service may be down." ∧
      lit "Backend service timeout. Service may be unavailable."
        ≠ lit "Backend service refused connection. Service may be down." ∧
      lit "Error forwarding request to backend: " ++ err
        ≠ lit "TLS/SSL connection error. Check certificate configuration." ∧
      lit "Error forwarding request to backend: " ++ err
        ≠ lit "Backend service timeout. Service may be unavailable." ∧
      lit "Error forwarding request to backend: " ++ err
        ≠ lit "Backend service refused connection. Service may be down.") ∧
    (∀ addr : GoString, addr.all isAddrByte = true → err = connectionRefusedError addr →
      (soapProxyHandler xmlUnmarshal clientDo r).response.body
        = lit "Backend service refused connection. Service may be down." ++ [10]) ∧
    (containsB err (lit "connection refused") = true → containsB err (lit "tls") = false →
      containsB err (lit "timeout") = false →
      (soapProxyHandler xmlUnmarshal clientDo r).response.body
        = lit "Backend service refused connection. Service may be down." ++ [10]) := by
  rw [handler_transport_error xmlUnmarshal clientDo r b env err hw hW hp hb hx hd]
  have hbody : (httpError (errorMsg err) 502).body = errorMsg err ++ [10] := rfl
  refine ⟨rfl, ?_, ⟨by decide, by decide, by decide, ?_, ?_, ?_⟩, ?_, ?_⟩
  · simp only [hbody]
    rcases errorMsg_cases err with h | h | h | h
    · exact Or.inl (by rw [h])
    · exact Or.inr (Or.inl (by rw [h]))
    · exact Or.inr (Or.inr (Or.inl (by rw [h])))
    · exact Or.inr (Or.inr (Or.inr (by rw [h])))
  · exact generic_ne err _ (by decide)
  · exact generic_ne err _ (by decide)
  · exact generic_ne err _ (by decide)
  · intro addr ha he
    simp only [hbody]
    rw [he, errorMsg_connectionRefused addr ha]
  · intro h1 h2 h3
    simp only [hbody]
    simp [errorMsg, h1, h2, h3]

theorem transport_error_bad_gateway_witness :
    (soapProxyHandler sampleUnmarshal
        (failingUpstream (connectionRefusedError (lit "192.0.2.10:443")))
        (sampleRequest (lit "POST") [] sampleEnvelope)).response.statusCode = 502 ∧
      (soapProxyHandler sampleUnmarshal
        (failingUpstream (connectionRefusedError (lit "192.0.2.10:443")))
        (sampleRequest (lit "POST") [] sampleEnvelope)).response.body
        = lit "Backend service refused connection. Service may be down." ++ [10] :=
  have h := transport_error_bad_gateway sampleUnmarshal
    (failingUpstream (connectionRefusedError (lit "192.0.2.10:443")))
    (sampleRequest (lit "POST") [] sampleEnvelope) sampleEnvelope
    { header := [], body := sampleEnvelope }
    (connectionRefusedError (lit "192.0.2.10:443"))
    (by decide) (by decide) rfl rfl (by decide) rfl
  ⟨h.1, h.2.2.2.1 (lit "192.0.2.10:443") (by decide) rfl⟩

/-! ## Canonical header keys -/

theorem canonicalLoop_lower (u : Bool) (k : GoString) :
    canonicalLoop u (k.map asciiLower) = canonicalLoop u k := by
  induction k generalizing u with
  | nil => rfl
  | cons c k ih =>
    simp only [List.map_cons, canonicalLoop]
    have hc : (if (u && decide (97 ≤ asciiLower c) && decide (asciiLower c ≤ 122)) = true
          then asciiLower c - 32
          else if (!u && decide (65 ≤ asciiLower c) && decide (asciiLower c ≤ 90)) = true
            then asciiLower c + 32 else asciiLower c)
        = (if (u && decide (97 ≤ c) && decide (c ≤ 122)) = true then c - 32
          else if (!u && decide (65 ≤ c) && decide (c ≤ 90)) = true then c + 32 else c) := by
      unfold asciiLower
      cases u <;> simp <;> split_ifs <;> omega
    rw [hc, ih]

theorem map_lower_canonicalLoop (u : Bool) (k : GoString) :
    (canonicalLoop u k).map asciiLower = k.map asciiLower := by
  induction k generalizing u with
  | nil => rfl
  | cons c k ih =>
    simp only [List.map_cons, canonicalLoop, ih]
    congr 1
    unfold asciiLower
    cases u <;> simp <;> split_ifs <;> omega

theorem valid_lower (c : Nat) :
    validHeaderFieldByte (asciiLower c) = validHeaderFieldByte c := by
  unfold asciiLower
  split_ifs with h
  · have h1 : validHeaderFieldByte c = true := by
      unfold validHeaderFieldByte
      simp [h.1, h.2]
    have h2 : validHeaderFieldByte (c + 32) = true := by
      unfold validHeaderFieldByte
      have : 97 ≤ c + 32 ∧ c + 32 ≤ 122 := by omega
      simp [this.1, this.2]
    rw [h1, h2]
  · rfl

theorem all_valid_lower (k : GoString) :
    (k.map asciiLower).all validHeaderFieldByte = k.all validHeaderFieldByte := by
  induction k with
  | nil => rfl
  | cons c k ih => simp only [List.map_cons, List.all_cons, valid_lower, ih]

/-- A name that equals a token `t` up to letter case has the canonical key of
`t`. -/
theorem canonical_of_fold (k t : GoString) (h : k.map asciiLower = t)
    (hv : t.all validHeaderFieldByte = true) :
    CanonicalMIMEHeaderKey k = canonicalLoop true t := by
  have hk : k.all validHeaderFieldByte = true := by rw [← all_valid_lower, h, hv]
  unfold CanonicalMIMEHeaderKey
  rw [if_pos hk, ← h, canonicalLoop_lower]

/-- A canonical key that equals a token `t` up to letter case is the canonical
key of `t`. -/
theorem canonical_fixed (k0 t : GoString)
    (h : (CanonicalMIMEHeaderKey k0).map asciiLower = t)
    (hv : t.all validHeaderFieldByte = true) :
    CanonicalMIMEHeaderKey k0 = canonicalLoop true t := by
  by_cases hk : k0.all validHeaderFieldByte = true
  · have h2 : k0.map asciiLower = t := by
      unfold CanonicalMIMEHeaderKey at h
      rw [if_pos hk, map_lower_canonicalLoop] at h
      exact h
    exact canonical_of_fold k0 t h2 hv
  · exfalso
    unfold CanonicalMIMEHeaderKey at h
    rw [if_neg hk] at h
    apply hk
    rw [← all_valid_lower, h, hv]

/-! ## Keys of a header map -/

theorem keys_Set (P : GoString → Prop) (h : Header) (key value : GoString)
    (hh : ∀ e ∈ h, P e.1) (hk : P (CanonicalMIMEHeaderKey key)) :
    ∀ e ∈ Header.Set h key value, P e.1 := by
  intro e he
  unfold Header.Set at he
  rw [List.mem_append] at he
  rcases he with he | he
  · exact hh e (List.mem_filter.mp he).1
  · rw [List.mem_singleton] at he
    rw [he]
    exact hk

theorem keys_Add (P : GoString → Prop) (h : Header) (key value : GoString)
    (hh : ∀ e ∈ h, P e.1) (hk : P (CanonicalMIMEHeaderKey key)) :
    ∀ e ∈ Header.Add h key value, P e.1 := by
  intro e he
  unfold Header.Add at he
  split at he
  · rw [List.mem_map] at he
    obtain ⟨e2, he2, heq⟩ := he
    split at heq
    · rw [← heq]
      exact hh e2 he2
    · rw [← heq]
      exact hh e2 he2
  · rw [List.mem_append] at he
    rcases he with he | he
    · exact hh e he
    · rw [List.mem_singleton] at he
      rw [he]
      exact hk

theorem keys_foldl_Add (P : GoString → Prop) (key : GoString) (vs : List GoString)
    (h : Header) (hh : ∀ e ∈ h, P e.1) (hk : P (CanonicalMIMEHeaderKey key)) :
    ∀ e ∈ vs.foldl (fun a value => Header.Add a key value) h, P e.1 := by
  induction vs generalizing h with
  | nil => exact hh
  | cons v vs ih => exact ih (Header.Add h key v) (keys_Add P h key v hh hk)

theorem filter_Set (h : Header) (key value : GoString) :
    (Header.Set h key value).filter (fun e => e.1 == CanonicalMIMEHeaderKey key)
      = [(CanonicalMIMEHeaderKey key, [value])] := by
  unfold Header.Set
  rw [List.filter_append]
  have h1 : (h.filter (fun e => e.1 != CanonicalMIMEHeaderKey key)).filter
      (fun e => e.1 == CanonicalMIMEHeaderKey key) = [] := by
    rw [List.filter_eq_nil_iff]
    intro e he
    have := (List.mem_filter.mp he).2
    simpa using this
  rw [h1]
  simp

theorem keys_copyResponseHeaders (P : GoString → Prop) (upstream h : Header)
    (hh : ∀ e ∈ h, P e.1) (hP : ∀ k, P (CanonicalMIMEHeaderKey k)) :
    ∀ e ∈ copyResponseHeaders upstream h, P e.1 := by
  induction upstream generalizing h with
  | nil => exact hh
  | cons u upstream ih =>
    unfold copyResponseHeaders
    rw [List.foldl_cons]
    apply ih
    split
    · exact hh
    · exact keys_foldl_Add P u.1 u.2 h hh (hP u.1)

theorem keys_responseHeaders (P : GoString → Prop) (upstream : Header) (n : Nat)
    (hP : ∀ k, P (CanonicalMIMEHeaderKey k)) :
    ∀ e ∈ responseHeaders upstream n, P e.1 := by
  unfold responseHeaders
  apply keys_Set P _ _ _ _ (hP _)
  have h0 := keys_copyResponseHeaders P upstream [] (by simp) hP
  split
  · exact keys_Set P _ _ _ h0 (hP _)
  · exact h0

theorem canonical_content_length :
    CanonicalMIMEHeaderKey (lit "Content-Length") = lit "Content-Length" := by decide

/-! ## Claim on the relayed response -/

/-- C4. A relayed response carries the translated body and exactly one
`Content-Length` entry with exactly one value, the decimal byte length of the
translated body, whatever the upstream header held; no other key of the
response header is `Content-Length` in another letter case. -/
theorem relayed_content_length (xmlUnmarshal : GoString → Option SOAPEnvelope)
    (clientDo : ProxyRequest → Except GoString UpstreamResponse) (r : Request)
    (b : GoString) (env : SOAPEnvelope) (resp : UpstreamResponse) (respBody : GoString)
    (hw : Values.Has r.query (lit "wsdl") = false)
    (hW : Values.Has r.query (lit "WSDL") = false)
    (hp : r.method = lit "POST") (hb : r.body = some b) (hx : xmlUnmarshal b = some env)
    (hd : clientDo (newProxyRequest r.header (replaceServiceNames b false)) = .ok resp)
    (hr : resp.body = some respBody) :
    (soapProxyHandler xmlUnmarshal clientDo r).response.body
        = replaceServiceNames respBody true ∧
      (soapProxyHandler xmlUnmarshal clientDo r).response.statusCode = resp.statusCode ∧
      (soapProxyHandler xmlUnmarshal clientDo r).response.header.filter
          (fun e => e.1 == lit "Content-Length")
        = [(lit "Content-Length", [sprintD (replaceServiceNames respBody true).length])] ∧
      (∀ e ∈ (soapProxyHandler xmlUnmarshal clientDo r).response.header,
        e.1.map asciiLower = lit "content-length" → e.1 = lit "Content-Length") := by
  rw [handler_relay xmlUnmarshal clientDo r b env resp respBody hw hW hp hb hx hd hr]
  refine ⟨rfl, rfl, ?_, ?_⟩
  · show (responseHeaders resp.header _).filter _ = _
    unfold responseHeaders
    have h := filter_Set
      (if (Header.Get (copyResponseHeaders resp.header []) (lit "Content-Type") == []) = true
        then Header.Set (copyResponseHeaders resp.header []) (lit "Content-Type")
          (lit "text/xml; charset=utf-8")
        else copyResponseHeaders resp.header [])
      (lit "Content-Length") (sprintD (replaceServiceNames respBody true).length)
    rw [canonical_content_length] at h
    exact h
  · intro e he hfold
    have hkey := keys_responseHeaders (fun k => ∃ k0, k = CanonicalMIMEHeaderKey k0)
      resp.header (replaceServiceNames respBody true).length (fun k => ⟨k, rfl⟩) e he
    obtain ⟨k0, hk0⟩ := hkey
    rw [hk0] at hfold ⊢
    rw [canonical_fixed k0 (lit "content-length") hfold (by decide)]
    decide

theorem relayed_content_length_witness :
    (soapProxyHandler sampleUnmarshal sampleUpstream
        (sampleRequest (lit "POST") [] (lit "<a/>"))).response.header.filter
          (fun e => e.1 == lit "Content-Length")
        = [(lit "Content-Length", [sprintD (replaceServiceNames (lit
            "<ettevottegaSeotudIsikud_v1Response><keha/></ettevottegaSeotudIsikud_v1Response>")
            true).length])] ∧
      sprintD (replaceServiceNames (lit
          "<ettevottegaSeotudIsikud_v1Response><keha/></ettevottegaSeotudIsikud_v1Response>")
          true).length = lit "78" :=
  ⟨(relayed_content_length sampleUnmarshal sampleUpstream
      (sampleRequest (lit "POST") [] (lit "<a/>")) (lit "<a/>")
      { header := [], body := lit "<a/>" }
      { statusCode := 200
        header := [(lit "Content-Length", [lit "80"]), (lit "Content-Type", [lit "text/xml"])]
        body := some (lit
          "<ettevottegaSeotudIsikud_v1Response><keha/></ettevottegaSeotudIsikud_v1Response>") }
      (lit "<ettevottegaSeotudIsikud_v1Response><keha/></ettevottegaSeotudIsikud_v1Response>")
      (by decide) (by decide) rfl rfl (by decide) rfl rfl).2.2.1,
    by decide⟩

/-! ## The upstream header -/

theorem isXRoadKey_spec (key : GoString) (h : isXRoadKey key = true) :
    6 < key.length ∧ (key.take 6 = lit "X-Road" ∨ key.take 6 = lit "x-road") := by
  unfold isXRoadKey at h
  simpa using h

theorem canonicalLoop_length (u : Bool) (k : GoString) :
    (canonicalLoop u k).length = k.length := by
  induction k generalizing u with
  | nil => rfl
  | cons c k ih => simp only [canonicalLoop, List.length_cons, ih]

theorem canonical_length (k : GoString) : (CanonicalMIMEHeaderKey k).length = k.length := by
  unfold CanonicalMIMEHeaderKey
  split
  · exact canonicalLoop_length true k
  · rfl

/-- The canonical key of a name starting with `x-road` in any letter case
starts with `X-Road`. -/
theorem canonicalLoop_xroad (k : GoString) (h : (k.take 6).map asciiLower = lit "x-road") :
    (canonicalLoop true k).take 6 = lit "X-Road" := by
  have h1 : k.map asciiLower = lit "x-road" ++ (k.drop 6).map asciiLower := by
    rw [← h, ← List.map_append, List.take_append_drop]
  have h2 : lit "x-road" = [120, 45, 114, 111, 97, 100] := by decide
  have h3 : lit "X-Road" = [88, 45, 82, 111, 97, 100] := by decide
  rw [← canonicalLoop_lower, h1, h2, h3]
  simp [canonicalLoop]

/-- A key that passes the X-Road test has a canonical key starting with
`X-Road` or `x-road`. -/
theorem canonical_xroad_prefix (key : GoString) (h : isXRoadKey key = true) :
    lit "X-Road" <+: CanonicalMIMEHeaderKey key ∨ lit "x-road" <+: CanonicalMIMEHeaderKey key := by
  obtain ⟨_, hk⟩ := isXRoadKey_spec key h
  unfold CanonicalMIMEHeaderKey
  split
  · left
    have hl : (key.take 6).map asciiLower = lit "x-road" := by
      rcases hk with hk | hk <;> rw [hk] <;> decide
    rw [← canonicalLoop_xroad key hl]
    exact List.take_prefix _ _
  · rcases hk with hk | hk
    · left; rw [← hk]; exact List.take_prefix _ _
    · right; rw [← hk]; exact List.take_prefix _ _

/-- The keys an upstream header may hold. -/
theorem keys_proxyHeaders (inbound : Header) (n : Nat) :
    ∀ e ∈ proxyHeaders inbound n,
      e.1 = lit "Content-Type" ∨ e.1 = lit "Content-Length" ∨ e.1 = lit "Connection" ∨
      e.1 = CanonicalMIMEHeaderKey (lit "SOAPAction") ∨ e.1 = lit "User-Agent" ∨
      lit "X-Road" <+: e.1 ∨ lit "x-road" <+: e.1 := by
  have hCT : CanonicalMIMEHeaderKey (lit "Content-Type") = lit "Content-Type" := by decide
  have hCo : CanonicalMIMEHeaderKey (lit "Connection") = lit "Connection" := by decide
  have hUA : CanonicalMIMEHeaderKey (lit "User-Agent") = lit "User-Agent" := by decide
  let P : GoString → Prop := fun k =>
    k = lit "Content-Type" ∨ k = lit "Content-Length" ∨ k = lit "Connection" ∨
      k = CanonicalMIMEHeaderKey (lit "SOAPAction") ∨ k = lit "User-Agent" ∨
      lit "X-Road" <+: k ∨ lit "x-road" <+: k
  have h1 : ∀ e ∈ Header.Set [] (lit "Content-Type") (lit "text/xml; charset=utf-8"), P e.1 :=
    keys_Set P _ _ _ (by simp) (Or.inl hCT)
  have h2 := keys_Set P _ (lit "Content-Length") (sprintD n) h1
    (Or.inr (Or.inl canonical_content_length))
  have h3 := keys_Set P _ (lit "Connection") (lit "keep-alive") h2
    (Or.inr (Or.inr (Or.inl hCo)))
  have hfold : ∀ (l : Header) (h : Header), (∀ e ∈ h, P e.1) →
      ∀ e ∈ copyXRoadHeaders l h, P e.1 := by
    intro l
    induction l with
    | nil => intro h hh; exact hh
    | cons u l ih =>
      intro h hh
      unfold copyXRoadHeaders
      rw [List.foldl_cons]
      apply ih
      split
      · rename_i hx
        apply keys_foldl_Add P u.1 u.2 h hh
        rcases canonical_xroad_prefix u.1 hx with hp | hp
        · exact Or.inr (Or.inr (Or.inr (Or.inr (Or.inr (Or.inl hp)))))
        · exact Or.inr (Or.inr (Or.inr (Or.inr (Or.inr (Or.inr hp)))))
      · exact hh
  unfold proxyHeaders
  apply hfold
  have hSA : P (CanonicalMIMEHeaderKey (lit "SOAPAction")) :=
    Or.inr (Or.inr (Or.inr (Or.inl rfl)))
  have hU : P (CanonicalMIMEHeaderKey (lit "User-Agent")) :=
    Or.inr (Or.inr (Or.inr (Or.inr (Or.inl hUA))))
  split
  · apply keys_Set P _ _ _ _ hU
    split
    · exact keys_Set P _ _ _ h3 hSA
    · exact h3
  · apply keys_Set P _ _ _ _ hU
    split
    · exact keys_Set P _ _ _ h3 hSA
    · exact h3

theorem values_insert_ne (h1 h2 : Header) (k : GoString) (vs : List GoString)
    (k2 : GoString) (hk : k2 ≠ k) :
    Header.values (h1 ++ (k, vs) :: h2) k2 = Header.values (h1 ++ h2) k2 := by
  induction h1 with
  | nil => rw [List.nil_append, List.nil_append, values_cons, if_neg hk]
  | cons e h1 ih =>
    obtain ⟨a, b⟩ := e
    rw [List.cons_append, List.cons_append, values_cons, values_cons, ih]

theorem Get_insert_ne (h1 h2 : Header) (k : GoString) (vs : List GoString)
    (key : GoString) (hk : CanonicalMIMEHeaderKey key ≠ k) :
    Header.Get (h1 ++ (k, vs) :: h2) key = Header.Get (h1 ++ h2) key := by
  unfold Header.Get
  rw [values_insert_ne h1 h2 k vs _ hk]

theorem copyXRoadHeaders_insert (h1 h2 : Header) (k : GoString) (vs : List GoString)
    (h : Header) (hk : isXRoadKey k = false) :
    copyXRoadHeaders (h1 ++ (k, vs) :: h2) h = copyXRoadHeaders (h1 ++ h2) h := by
  unfold copyXRoadHeaders
  rw [List.foldl_append, List.foldl_append, List.foldl_cons]
  simp only [hk, Bool.false_eq_true, if_false]

/-- An inbound entry that is neither the `SOAPAction` entry, nor the
`User-Agent` entry, nor an X-Road one leaves the upstream header as it is. -/
theorem proxyHeaders_insert (h1 h2 : Header) (k : GoString) (vs : List GoString) (n : Nat)
    (hs : k ≠ CanonicalMIMEHeaderKey (lit "SOAPAction")) (hu : k ≠ lit "User-Agent")
    (hx : isXRoadKey k = false) :
    proxyHeaders (h1 ++ (k, vs) :: h2) n = proxyHeaders (h1 ++ h2) n := by
  have hUA : CanonicalMIMEHeaderKey (lit "User-Agent") = lit "User-Agent" := by decide
  unfold proxyHeaders
  rw [Get_insert_ne h1 h2 k vs (lit "SOAPAction") (fun h => hs h.symm),
    Get_insert_ne h1 h2 k vs (lit "User-Agent") (fun h => hu (by rw [← h, hUA])),
    copyXRoadHeaders_insert h1 h2 k vs _ hx]

theorem values_foldl_Add (key : GoString) (vs : List GoString) (h : Header)
    (k : GoString) :
    Header.values (vs.foldl (fun a value => Header.Add a key value) h) k
      = if k = CanonicalMIMEHeaderKey key then Header.values h k ++ vs
        else Header.values h k := by
  induction vs generalizing h with
  | nil => simp
  | cons v vs ih =>
    rw [List.foldl_cons, ih, values_Add]
    by_cases hk : k = CanonicalMIMEHeaderKey key
    · simp [hk]
    · simp [hk]

/-- The X-Road loop only ever appends: what a key held before is a prefix of
what it holds after. -/
theorem values_copyXRoadHeaders_prefix (l : Header) (h : Header) (k : GoString) :
    Header.values h k <+: Header.values (copyXRoadHeaders l h) k := by
  induction l generalizing h with
  | nil => exact List.prefix_refl _
  | cons u l ih =>
    unfold copyXRoadHeaders
    rw [List.foldl_cons]
    refine List.IsPrefix.trans ?_ (ih _)
    split
    · rw [values_foldl_Add]
      split
      · exact List.prefix_append _ _
      · exact List.prefix_refl _
    · exact List.prefix_refl _

/-- Every value of an inbound entry that passes the X-Road test is in the
upstream header, under the canonical key, in order. -/
theorem values_copyXRoadHeaders (l : Header) (h : Header) (e : GoString × List GoString)
    (he : e ∈ l) (hx : isXRoadKey e.1 = true) :
    e.2 <:+: Header.values (copyXRoadHeaders l h) (CanonicalMIMEHeaderKey e.1) := by
  obtain ⟨s, t, rfl⟩ := List.append_of_mem he
  have hstep : copyXRoadHeaders (s ++ e :: t) h
      = copyXRoadHeaders t (e.2.foldl (fun a value => Header.Add a e.1 value)
          (copyXRoadHeaders s h)) := by
    unfold copyXRoadHeaders
    rw [List.foldl_append, List.foldl_cons, if_pos hx]
  rw [hstep]
  have hp := values_copyXRoadHeaders_prefix t
    (e.2.foldl (fun a value => Header.Add a e.1 value) (copyXRoadHeaders s h))
    (CanonicalMIMEHeaderKey e.1)
  rw [values_foldl_Add, if_pos rfl] at hp
  obtain ⟨post, hpost⟩ := hp
  exact ⟨Header.values (copyXRoadHeaders s h) (CanonicalMIMEHeaderKey e.1), post, hpost⟩

/-! ## Claims on the upstream header -/

/-- C7. Header allow-list. Every key of the header of an upstream call is
`Content-Type`, `Content-Length`, `Connection`, the canonical key of
`SOAPAction` (the same name up to letter case), `User-Agent`, or starts with
`X-Road` or `x-road`; and an
inbound entry that is neither the `SOAPAction` entry, nor the `User-Agent`
entry, nor one passing the X-Road test changes nothing: without it the
handler makes the same upstream calls and gives the same response. -/
theorem upstream_header_allow_list (xmlUnmarshal : GoString → Option SOAPEnvelope)
    (clientDo : ProxyRequest → Except GoString UpstreamResponse) (r : Request) :
    (∀ q ∈ (soapProxyHandler xmlUnmarshal clientDo r).upstreamCalls, ∀ e ∈ q.header,
      e.1 = lit "Content-Type" ∨ e.1 = lit "Content-Length" ∨ e.1 = lit "Connection" ∨
      e.1 = CanonicalMIMEHeaderKey (lit "SOAPAction") ∨ e.1 = lit "User-Agent" ∨
      lit "X-Road" <+: e.1 ∨ lit "x-road" <+: e.1) ∧
    (CanonicalMIMEHeaderKey (lit "SOAPAction")).map asciiLower
      = (lit "SOAPAction").map asciiLower ∧
    (∀ (h1 h2 : Header) (k : GoString) (vs : List GoString),
      r.header = h1 ++ (k, vs) :: h2 →
      k ≠ CanonicalMIMEHeaderKey (lit "SOAPAction") → k ≠ lit "User-Agent" →
      isXRoadKey k = false →
      soapProxyHandler xmlUnmarshal clientDo r
        = soapProxyHandler xmlUnmarshal clientDo { r with header := h1 ++ h2 }) := by
  refine ⟨?_, by decide, ?_⟩
  · intro q hq e he
    obtain ⟨b, _, _, _, hqb⟩ := handler_calls xmlUnmarshal clientDo r q hq
    rw [hqb] at he
    exact keys_proxyHeaders r.header _ e he
  · intro h1 h2 k vs hr hs hu hx
    have hreq : ∀ b, newProxyRequest r.header b = newProxyRequest (h1 ++ h2) b := by
      intro b
      unfold newProxyRequest
      rw [hr, proxyHeaders_insert h1 h2 k vs _ hs hu hx]
    unfold soapProxyHandler
    simp only [hreq]
    rfl

theorem upstream_header_allow_list_witness :
    soapProxyHandler sampleUnmarshal sampleUpstream
        (sampleRequest (lit "POST")
          [(lit "Cookie", [lit "sid=1"]), (lit "X-Road-Client", [lit "EE/GOV/1"])]
          (lit "<a/>"))
      = soapProxyHandler sampleUnmarshal sampleUpstream
        { sampleRequest (lit "POST")
            [(lit "Cookie", [lit "sid=1"]), (lit "X-Road-Client", [lit "EE/GOV/1"])]
            (lit "<a/>") with
          header := [] ++ [(lit "X-Road-Client", [lit "EE/GOV/1"])] } :=
  (upstream_header_allow_list sampleUnmarshal sampleUpstream
    (sampleRequest (lit "POST")
      [(lit "Cookie", [lit "sid=1"]), (lit "X-Road-Client", [lit "EE/GOV/1"])]
      (lit "<a/>"))).2.2 [] [(lit "X-Road-Client", [lit "EE/GOV/1"])] (lit "Cookie")
    [lit "sid=1"] rfl (by decide) (by decide) (by decide)

/-- C8, as stated, fails: the header `X-Road` carries the prefix (its name is
`x-road` up to letter case, and `X-Road` is the key under which `net/http`
delivers it), yet the upstream header of the forwarded request holds the four
fixed keys only, so its value is not copied. -/
theorem six_byte_xroad_not_copied :
    ((lit "X-Road").take 6).map asciiLower = lit "x-road" ∧
      CanonicalMIMEHeaderKey (lit "X-Road") = lit "X-Road" ∧
      sampleUnmarshal sampleEnvelope = some { header := [], body := sampleEnvelope } ∧
      (soapProxyHandler sampleUnmarshal sampleUpstream
        (sampleRequest (lit "POST") [(lit "X-Road", [lit "EE/GOV/1"])]
          sampleEnvelope)).upstreamCalls.map (fun q => q.header.map Prod.fst)
        = [[lit "Content-Type", lit "Content-Length", lit "Connection", lit "User-Agent"]] := by
  refine ⟨by decide, by decide, by decide, ?_⟩
  rw [handler_relay sampleUnmarshal sampleUpstream _ sampleEnvelope
    { header := [], body := sampleEnvelope } _ _ (by decide) (by decide) rfl rfl (by decide)
    rfl rfl]
  decide

/-- A key delivered by `net/http` that starts with `x-road` up to letter case
starts with `X-Road`. -/
theorem delivered_xroad (key name : GoString) (hv : name.all validHeaderFieldByte = true)
    (hk : key = CanonicalMIMEHeaderKey name)
    (hfold : (key.take 6).map asciiLower = lit "x-road") : key.take 6 = lit "X-Road" := by
  have hc : key = canonicalLoop true name := by
    rw [hk]; unfold CanonicalMIMEHeaderKey; rw [if_pos hv]
  have hn : (name.take 6).map asciiLower = lit "x-road" := by
    rw [← hfold, hc, List.map_take, List.map_take, map_lower_canonicalLoop]
  rw [hc]
  exact canonicalLoop_xroad name hn

/-- C8, amended. For every forwarded request, every inbound header whose name
is longer than six bytes and starts with `x-road` in any letter case, under
the canonical key that `net/http` delivers it with, is copied to the upstream
request with all of its values, in order; so is every inbound map key longer
than six bytes that starts with `X-Road` or `x-road`. -/
theorem xroad_headers_copied (xmlUnmarshal : GoString → Option SOAPEnvelope)
    (clientDo : ProxyRequest → Except GoString UpstreamResponse) (r : Request) :
    (∀ q ∈ (soapProxyHandler xmlUnmarshal clientDo r).upstreamCalls, ∀ e ∈ r.header,
      (∃ name : GoString, name.all validHeaderFieldByte = true ∧
        e.1 = CanonicalMIMEHeaderKey name) →
      6 < e.1.length → (e.1.take 6).map asciiLower = lit "x-road" →
      e.2 <:+: Header.values q.header (CanonicalMIMEHeaderKey e.1)) ∧
    (∀ q ∈ (soapProxyHandler xmlUnmarshal clientDo r).upstreamCalls, ∀ e ∈ r.header,
      6 < e.1.length → (e.1.take 6 = lit "X-Road" ∨ e.1.take 6 = lit "x-road") →
      e.2 <:+: Header.values q.header (CanonicalMIMEHeaderKey e.1)) := by
  have key : ∀ q ∈ (soapProxyHandler xmlUnmarshal clientDo r).upstreamCalls, ∀ e ∈ r.header,
      6 < e.1.length → (e.1.take 6 = lit "X-Road" ∨ e.1.take 6 = lit "x-road") →
      e.2 <:+: Header.values q.header (CanonicalMIMEHeaderKey e.1) := by
    intro q hq e he hlen hpre
    obtain ⟨b, _, _, _, hqb⟩ := handler_calls xmlUnmarshal clientDo r q hq
    have hx : isXRoadKey e.1 = true := by
      unfold isXRoadKey
      rcases hpre with h | h <;> simp [hlen, h]
    rw [hqb]
    unfold newProxyRequest proxyHeaders
    exact values_copyXRoadHeaders r.header _ e he hx
  refine ⟨?_, key⟩
  intro q hq e he hdel hlen hfold
  obtain ⟨name, hv, hk⟩ := hdel
  exact key q hq e he hlen (Or.inl (delivered_xroad e.1 name hv hk hfold))

theorem xroad_headers_copied_witness :
    [lit "EE/GOV/1", lit "EE/GOV/2"] <:+:
      Header.values (newProxyRequest [(lit "X-Road-Client", [lit "EE/GOV/1", lit "EE/GOV/2"])]
        (replaceServiceNames sampleEnvelope false)).header
        (CanonicalMIMEHeaderKey (lit "X-Road-Client")) :=
  (xroad_headers_copied sampleUnmarshal sampleUpstream
    (sampleRequest (lit "POST") [(lit "X-Road-Client", [lit "EE/GOV/1", lit "EE/GOV/2"])]
      sampleEnvelope)).1
    (newProxyRequest [(lit "X-Road-Client", [lit "EE/GOV/1", lit "EE/GOV/2"])]
      (replaceServiceNames sampleEnvelope false))
    (by
      rw [handler_relay sampleUnmarshal sampleUpstream _ sampleEnvelope
        { header := [], body := sampleEnvelope } _ _ (by decide) (by decide) rfl rfl
        (by decide) rfl rfl]
      exact List.mem_singleton.mpr rfl)
    (lit "X-Road-Client", [lit "EE/GOV/1", lit "EE/GOV/2"])
    (List.mem_singleton.mpr rfl)
    ⟨lit "x-ROAD-client", by decide, by decide⟩ (by decide) (by decide)

end Arireg
